import Mathlib

/-!
Verification of the MABE2 module-orchestration kernel (population/organism
lifecycle, signal bus, trait registry) against its natural-language
specification.

The C++ sources under src/source/core are shallowly embedded below.  Code
present in the sources (MABE.hpp, Module.hpp, TraitInfo.h) is translated
directly; operations that live in files absent from the snapshot
(MABEBase.hpp, Population.hpp, Collection.hpp) are modelled from the
specification text and are marked `Modelled from the spec:` in their doc
comments.

Organisms are owned via an explicit heap: population slots hold organism
ids, a heap maps ids to genome values, and the shared sentinel ("empty")
organism is a distinguished id.  Lifecycle signals and teardown actions are
recorded in an ordered trace.
-/

namespace MABE2

/-- Abstract organism content (genome value stored in the heap). -/
abbrev Genome := Nat

/-- A position reference: `none` is the null/invalid position (a
default-constructed `OrgPosition`), `some (p, i)` refers to slot `i` of
population `p`.  Modelled from the spec: "Slot / OrgPosition — a
(population, index) reference; validity = index in bounds ∧ population
exists" (Population.hpp is absent from the snapshot). -/
abbrev OrgPosition := Option (Nat × Nat)

/-- The null (invalid) `OrgPosition`. -/
def OrgPosition.invalid : OrgPosition := none

/-- One population: a name plus an ordered sequence of slots, each slot
holding an organism id (possibly the shared sentinel id).  Modelled from
the spec: "Population — an ordered, named set of slots"
(Population.hpp is absent from the snapshot). -/
structure Popn where
  name : String
  slots : List Nat
  deriving DecidableEq, Repr

instance : Inhabited Popn := ⟨⟨"", []⟩⟩

/-- A module as seen by the signal bus: its identity and its declared
capability set (`has_signal` bit set, indexed by signal id). -/
structure SigMod where
  id : Nat
  hasSignal : List Bool
  deriving DecidableEq, Repr

/-- Lifecycle signals and teardown actions, recorded in order.  Signal
events carry the same data the C++ triggers pass (organism values are
carried by genome). -/
inductive Event where
  | beforeRepro (ppos : OrgPosition)
  | onOffspringReady (g : Genome) (ppos : OrgPosition) (targetPop : Nat)
  | onInjectReady (g : Genome) (pop : Nat)
  | beforePlacement (g : Genome) (pos ppos : OrgPosition)
  | onPlacement (pos : OrgPosition)
  | beforeDeath (pos : OrgPosition)
  | beforeSwap (pos1 pos2 : OrgPosition)
  | onSwap (pos1 pos2 : OrgPosition)
  | beforePopResize (pop newSize : Nat)
  | onPopResize (pop oldSize : Nat)
  | beforeExit
  | freeModule (idx : Nat)
  | freePop (pop : Nat)
  | freeSentinel
  deriving DecidableEq, Repr

/-- The world state of the MABE controller: populations, the organism
heap, the shared sentinel id, the module list and per-channel subscriber
lists of the signal bus, the event trace and the error collector. -/
structure WorldState where
  pops : List Popn
  emptyOrg : Nat
  heap : Nat → Option Genome
  nextId : Nat
  trace : List Event
  errors : List String
  modules : List SigMod
  sigLists : List (List SigMod)
  rescanSignals : Bool

/-- A collection of organism positions.  Modelled from the spec:
"Collection — an ad hoc, cross-population set of positions; set of
OrgPosition (duplicates collapse)" (Collection.hpp is absent from the
snapshot). -/
abbrev Collection := List OrgPosition

/-- `Collection::Insert` for a single position: set semantics, duplicates
collapse, insertion order preserved.  Modelled from the spec (see
`Collection`). -/
def collInsert (c : Collection) (p : OrgPosition) : Collection :=
  if p ∈ c then c else c ++ [p]

/-- Append one event to the trace (a signal trigger or teardown action). -/
def pushEvent (st : WorldState) (e : Event) : WorldState :=
  { st with trace := st.trace ++ [e] }

/-- `ErrorManager::AddError`: append one message to the ordered error
collector. -/
def addError (st : WorldState) (msg : String) : WorldState :=
  { st with errors := st.errors ++ [msg] }

/-- Allocate a fresh organism with the given genome; returns the new state
and the fresh id.  (Models `CloneOrganism` / `MakeOffspringOrganism` /
module-factory `Make` creating a heap object.) -/
def allocOrg (st : WorldState) (g : Genome) : WorldState × Nat :=
  ({ st with
      heap := fun j => if j = st.nextId then some g else st.heap j,
      nextId := st.nextId + 1 },
   st.nextId)

/-- Release (delete) the organism with the given id from the heap. -/
def releaseOrg (st : WorldState) (id : Nat) : WorldState :=
  { st with heap := fun j => if j = id then none else st.heap j }

/-- The organism id held at slot `i` of population `p` (sentinel for
out-of-range access). -/
def slotAt (st : WorldState) (p i : Nat) : Nat :=
  ((st.pops.getD p default).slots).getD i st.emptyOrg

/-- Overwrite slot `i` of population `p` with organism id `id` (no-op out
of range). -/
def setSlot (st : WorldState) (p i : Nat) (id : Nat) : WorldState :=
  { st with
    pops :=
      match st.pops.get? p with
      | some pop => st.pops.set p { pop with slots := pop.slots.set i id }
      | none => st.pops }

/-- `OrgPosition::IsValid` relative to a population list.  Modelled from
the spec: "validity = index in bounds ∧ population exists". -/
def isValidPos (pops : List Popn) (pos : OrgPosition) : Bool :=
  match pos with
  | none => false
  | some (p, i) => p < pops.length && i < (pops.getD p default).slots.length

/-- Genome value of the organism with the given id (default 0 when the id
is not live; only used on live ids). -/
def orgVal (st : WorldState) (id : Nat) : Genome := (st.heap id).getD 0

-- ======================= MABEBase operations =======================
-- MABEBase.hpp is not in the snapshot; the four operations below are
-- modelled from spec section 4.3.

/-- Modelled from the spec: "Single choke point for entering a population:
`AddOrgAt(org, pos, parent_pos?)` — fires BeforePlacement(org, pos,
parent_pos), installs `org` at `pos` (releasing whatever was previously
there, unless it was the sentinel), fires OnPlacement(pos)"
(MABEBase.hpp is absent from the snapshot). -/
def AddOrgAt (st : WorldState) (orgId : Nat) (pos ppos : OrgPosition) : WorldState :=
  match pos with
  | none => st
  | some (p, i) =>
    let st1 := pushEvent st (.beforePlacement (orgVal st orgId) pos ppos)
    let old := slotAt st1 p i
    let st2 := if old ≠ st1.emptyOrg then releaseOrg st1 old else st1
    let st3 := setSlot st2 p i orgId
    pushEvent st3 (.onPlacement pos)

/-- Modelled from the spec: "`ClearOrgAt(pos)`: if occupied by a real
organism, fires BeforeDeath(pos), replaces the slot with the sentinel
reference, releases the organism" (MABEBase.hpp is absent from the
snapshot). -/
def ClearOrgAt (st : WorldState) (pos : OrgPosition) : WorldState :=
  match pos with
  | none => st
  | some (p, i) =>
    let old := slotAt st p i
    if old ≠ st.emptyOrg then
      let st1 := pushEvent st (.beforeDeath pos)
      let st2 := setSlot st1 p i st.emptyOrg
      releaseOrg st2 old
    else st

/-- Modelled from the spec: "`SwapOrgs(pos1, pos2)`: fires BeforeSwap,
exchanges slot contents (may cross populations), fires OnSwap"
(MABEBase.hpp is absent from the snapshot). -/
def SwapOrgs (st : WorldState) (pos1 pos2 : OrgPosition) : WorldState :=
  match pos1, pos2 with
  | some (a, i), some (b, j) =>
    let st1 := pushEvent st (.beforeSwap pos1 pos2)
    let x := slotAt st1 a i
    let y := slotAt st1 b j
    let st2 := setSlot (setSlot st1 a i y) b j x
    pushEvent st2 (.onSwap pos1 pos2)
  | _, _ => st

/-- Modelled from the spec: "`ResizePop(pop, n)`: fires
BeforePopResize(pop, n); grows with sentinel-filled new slots or shrinks
(removed slots must be empty); fires OnPopResize(pop, old_size)"
(MABEBase.hpp is absent from the snapshot). -/
def ResizePop (st : WorldState) (p n : Nat) : WorldState :=
  let oldSize := ((st.pops.getD p default).slots).length
  let st1 := pushEvent st (.beforePopResize p n)
  let st2 :=
    { st1 with
      pops :=
        match st1.pops.get? p with
        | some pop =>
          st1.pops.set p
            { pop with
              slots :=
                if pop.slots.length ≤ n then
                  pop.slots ++ List.replicate (n - pop.slots.length) st1.emptyOrg
                else pop.slots.take n }
        | none => st1.pops }
  pushEvent st2 (.onPopResize p oldSize)

-- ======================= MABE operations (from MABE.hpp) =======================

/-- `MABE::MoveOrg` (MABE.hpp lines 169-172): move an organism from one
position to another; kill anything that previously occupied the target
position. -/
def MoveOrg (st : WorldState) (fromPos toPos : OrgPosition) : WorldState :=
  SwapOrgs (ClearOrgAt st toPos) fromPos toPos

/-- The spec's description of `MoveOrg`, followed literally:
"`MoveOrg(from, to) ≡ ClearOrgAt(to)` then `SwapOrgs(from, to)`". -/
def MoveOrg_specWords (st : WorldState) (fromPos toPos : OrgPosition) : WorldState :=
  SwapOrgs (ClearOrgAt st toPos) fromPos toPos

/-- A population's pluggable `PlaceInject` strategy: maps the organism to a
candidate position, possibly growing populations (the default strategy is
`PushEmpty`, which appends a new empty slot).  Modelled from the spec:
"Placement strategy is pluggable per population: a function mapping
(organism, optional-parent-position) → candidate position"
(Population.hpp is absent from the snapshot). -/
abbrev PlaceInjectFn := List Popn → Genome → List Popn × OrgPosition

/-- A population's pluggable `PlaceBirth` strategy (see `PlaceInjectFn`);
additionally receives the parent position. -/
abbrev PlaceBirthFn := List Popn → Genome → OrgPosition → List Popn × OrgPosition

/-- Loop body of `MABE::Inject(Population&, const Organism&, size_t)`
(MABE.hpp lines 819-835): clone the organism, fire OnInjectReady, ask
`PlaceInject` for a destination; `AddOrgAt` and record the position if it
is valid, otherwise delete the clone and report an error.  `n` counts the
remaining iterations, `i` is the C++ loop counter. -/
def InjectLoop (pf : PlaceInjectFn) (popId : Nat) (g : Genome) :
    Nat → Nat → WorldState → Collection → WorldState × Collection
  | 0, _, st, coll => (st, coll)
  | n + 1, i, st, coll =>
    let a := allocOrg st g
    let st2 := pushEvent a.1 (.onInjectReady g popId)
    let pr := pf st2.pops g
    let st3 := { st2 with pops := pr.1 }
    if isValidPos st3.pops pr.2 then
      InjectLoop pf popId g n (i + 1) (AddOrgAt st3 a.2 pr.2 OrgPosition.invalid)
        (collInsert coll pr.2)
    else
      InjectLoop pf popId g n (i + 1)
        (addError (releaseOrg st3 a.2)
          ("Invalid position; failed to inject organism " ++ toString i ++ "!"))
        coll

/-- `MABE::Inject(Population&, const Organism&, size_t)` (MABE.hpp lines
819-835): inject `count` clones of the given organism into population
`popId`, returning the `Collection` of placements. -/
def Inject (pf : PlaceInjectFn) (popId : Nat) (st : WorldState) (g : Genome)
    (count : Nat) : WorldState × Collection :=
  InjectLoop pf popId g count 0 st []

/-- `MABE::InjectInstance` (MABE.hpp lines 839-849): take over an existing
organism instance, fire OnInjectReady, place it; `AddOrgAt` if the
position is valid, otherwise delete it and report an error; return the
position either way. -/
def InjectInstance (pf : PlaceInjectFn) (popId : Nat) (st : WorldState)
    (orgId : Nat) : WorldState × OrgPosition :=
  let g := orgVal st orgId
  let st1 := pushEvent st (.onInjectReady g popId)
  let pr := pf st1.pops g
  let st2 := { st1 with pops := pr.1 }
  if isValidPos st2.pops pr.2 then (AddOrgAt st2 orgId pr.2 OrgPosition.invalid, pr.2)
  else (addError (releaseOrg st2 orgId) "Invalid position; failed to inject organism!", pr.2)

/-- Loop body of `MABE::Inject(Population&, const std::string&, size_t)`
(MABE.hpp lines 855-868): have the named organism manager `Make` an
instance (`mk i` is the factory output for iteration `i`), inject it via
`InjectInstance`, and record the returned position — unconditionally. -/
def InjectTypedLoop (pf : PlaceInjectFn) (mk : Nat → Genome) (popId : Nat) :
    Nat → Nat → WorldState → Collection → WorldState × Collection
  | 0, _, st, coll => (st, coll)
  | n + 1, i, st, coll =>
    let a := allocOrg st (mk i)
    let r := InjectInstance pf popId a.1 a.2
    InjectTypedLoop pf mk popId n (i + 1) r.1 (collInsert coll r.2)

/-- `MABE::Inject(Population&, const std::string&, size_t)` (MABE.hpp
lines 855-868): the named-organism-type variant of `Inject`. -/
def InjectTyped (pf : PlaceInjectFn) (mk : Nat → Genome) (popId : Nat)
    (st : WorldState) (count : Nat) : WorldState × Collection :=
  InjectTypedLoop pf mk popId count 0 st []

/-- Loop body of `MABE::DoBirth` (MABE.hpp lines 889-914): construct each
offspring by mutated inheritance (`mutateFn`) or exact cloning per
`doMut`, fire OnOffspringReady, resolve a destination via `PlaceBirth`;
`AddOrgAt` and record the position if valid, otherwise just delete the
offspring (note: no error is reported in the source). -/
def DoBirthLoop (mutateFn : Genome → Genome) (pb : PlaceBirthFn) (popId : Nat)
    (g : Genome) (ppos : OrgPosition) (doMut : Bool) :
    Nat → WorldState → Collection → WorldState × Collection
  | 0, st, coll => (st, coll)
  | n + 1, st, coll =>
    let child := if doMut then mutateFn g else g
    let a := allocOrg st child
    let st2 := pushEvent a.1 (.onOffspringReady child ppos popId)
    let pr := pb st2.pops child ppos
    let st3 := { st2 with pops := pr.1 }
    if isValidPos st3.pops pr.2 then
      DoBirthLoop mutateFn pb popId g ppos doMut n (AddOrgAt st3 a.2 pr.2 ppos)
        (collInsert coll pr.2)
    else
      DoBirthLoop mutateFn pb popId g ppos doMut n (releaseOrg st3 a.2) coll

/-- `MABE::DoBirth(const Organism&, OrgPosition, Population&, size_t,
bool)` (MABE.hpp lines 889-914): fire BeforeRepro once, then produce
`count` offspring of the parent genome `g` from parent position `ppos`
into population `popId`. -/
def DoBirth (mutateFn : Genome → Genome) (pb : PlaceBirthFn) (popId : Nat)
    (st : WorldState) (g : Genome) (ppos : OrgPosition) (count : Nat)
    (doMut : Bool) : WorldState × Collection :=
  DoBirthLoop mutateFn pb popId g ppos doMut count
    (pushEvent st (.beforeRepro ppos)) []

/-- `MABE::DoBirth(const Organism&, OrgPosition, OrgPosition, bool)`
(MABE.hpp lines 916-930): the explicit-target-position variant — fire
BeforeRepro, construct one offspring, fire OnOffspringReady, and
`AddOrgAt` directly at the target position (no `PlaceBirth`, no validity
branch). -/
def DoBirthAt (mutateFn : Genome → Genome) (st : WorldState) (g : Genome)
    (ppos targetPos : OrgPosition) (doMut : Bool) : WorldState × Collection :=
  let st1 := pushEvent st (.beforeRepro ppos)
  let child := if doMut then mutateFn g else g
  let a := allocOrg st1 child
  let st2 := pushEvent a.1
    (.onOffspringReady child ppos (match targetPos with | some (p, _) => p | none => 0))
  (AddOrgAt st2 a.2 targetPos ppos, collInsert [] targetPos)

/-- Inner loop of `MABE::ClearPop` (MABE.hpp lines 222-224): apply
`ClearOrgAt` to each position of the population (`n` remaining, starting
at index `i`). -/
def clearFrom (p : Nat) : Nat → Nat → WorldState → WorldState
  | 0, _, st => st
  | n + 1, i, st => clearFrom p n (i + 1) (ClearOrgAt st (some (p, i)))

/-- `MABE::ClearPop` (MABE.hpp lines 222-224): remove all organisms from a
population; does not change its size. -/
def ClearPop (st : WorldState) (p : Nat) : WorldState :=
  clearFrom p ((st.pops.getD p default).slots).length 0 st

/-- `MABE::EmptyPop` (MABE.hpp lines 227-230): clear a population, then
resize it. -/
def EmptyPop (st : WorldState) (p newSize : Nat) : WorldState :=
  ResizePop (ClearPop st p) p newSize

/-- `MABE::InjectAt` (MABE.hpp lines 192-197): clone the provided organism,
fire OnInjectReady, and `AddOrgAt` the clone at the specified position. -/
def InjectAt (st : WorldState) (g : Genome) (pos : OrgPosition) : WorldState :=
  let a := allocOrg st g
  let st2 := pushEvent a.1
    (.onInjectReady g (match pos with | some (p, _) => p | none => 0))
  AddOrgAt st2 a.2 pos OrgPosition.invalid

/-- Inner loop of `MABE::CopyPop` (MABE.hpp lines 233-239): for each index
of the source population, skip it if empty, otherwise `InjectAt` a clone
of the source organism at the matching destination index. -/
def copyFrom (srcId dstId : Nat) : Nat → Nat → WorldState → WorldState
  | 0, _, st => st
  | n + 1, i, st =>
    let st1 :=
      if slotAt st srcId i = st.emptyOrg then st
      else InjectAt st (orgVal st (slotAt st srcId i)) (some (dstId, i))
    copyFrom srcId dstId n (i + 1) st1

/-- `MABE::CopyPop` (MABE.hpp lines 233-239): empty the destination to the
source's size, then deep-clone every occupied source slot into the
matching destination slot. -/
def CopyPop (st : WorldState) (srcId dstId : Nat) : WorldState :=
  let srcSize := ((st.pops.getD srcId default).slots).length
  copyFrom srcId dstId srcSize 0 (EmptyPop st dstId srcSize)

/-- `MABE::GetPopID` (MABE.hpp lines 160-162): index of the population
with the given name, or -1 when no population matches
(`emp::FindEval`). -/
def GetPopID (st : WorldState) (popName : String) : Int :=
  match st.pops.findIdx? (fun p => p.name = popName) with
  | some i => (i : Int)
  | none => -1

/-- The C++ conversion of a (possibly negative) int population id to
`size_t`, as performed implicitly by `GetPopulation(size_t)`:
two's-complement wrap-around at 64 bits (so -1 becomes 2^64 - 1). -/
def toSizeT (i : Int) : Nat := (i % (2 ^ 64 : Int)).toNat

/-- `MABE::GetPopulation` (MABE.hpp line 163): `*pops[id]`.  The raw
vector indexing is embedded as an `Option` lookup; `none` marks an
out-of-bounds access (undefined behavior in the C++). -/
def GetPopulation (st : WorldState) (id : Nat) : Option Popn := st.pops.get? id

/-- `MABE::InjectByName` (MABE.hpp lines 872-884): look up the population
by name; if the name matches nothing, report an error — and then
unconditionally call `GetPopulation(pop_id)` with the id that is still -1.
The result is `none` exactly when that population lookup goes out of
bounds (the C++ dereferences `pops[(size_t)-1]`, undefined behavior);
otherwise the typed `Inject` runs. -/
def InjectByName (pf : PlaceInjectFn) (mk : Nat → Genome) (st : WorldState)
    (popName typeName : String) (count : Nat) :
    Option (WorldState × Collection) :=
  let popId := GetPopID st popName
  let st1 :=
    if popId = -1 then
      addError st
        ("Invalid population name used in inject: org_type= '" ++ typeName ++
          "'; pop_name= '" ++ popName ++ "'; copy_count=" ++ toString count)
    else st
  match GetPopulation st1 (toSizeT popId) with
  | none => none
  | some _ => some (InjectTyped pf mk (toSizeT popId) st1 count)

/-- `MABE::UpdateSignals` (MABE.hpp lines 502-516): clear every channel's
subscriber list, then for each module in registration order subscribe it
to every channel whose `has_signal` flag it has set; finally turn off the
rescan flag. -/
def UpdateSignals (st : WorldState) : WorldState :=
  { st with
    sigLists :=
      (List.range st.sigLists.length).map
        (fun sigId => st.modules.filter (fun m => m.hasSignal.getD sigId false)),
    rescanSignals := false }

/-- `MABE::~MABE` (MABE.hpp lines 125-135): fire BeforeExit, delete all
modules, then for each population in order run `ClearPop` and delete it,
and delete the shared empty organism last. -/
def destructMABE (st : WorldState) : WorldState :=
  let st1 := pushEvent st .beforeExit
  let st2 :=
    (List.range st1.modules.length).foldl (fun s k => pushEvent s (.freeModule k)) st1
  let st3 := { st2 with modules := [] }
  let st4 :=
    (List.range st3.pops.length).foldl
      (fun s p => pushEvent (ClearPop s p) (.freePop p)) st3
  pushEvent st4 .freeSentinel

/-- The resampling loop of `MABE::GetRandomOrgPos` (MABE.hpp lines
950-955), fuel-indexed: sample index `stream k % size` (the `k`-th output
of the uniform generator), return it if the slot is occupied, otherwise
resample.  `none` means the loop has not terminated within `fuel`
samples. -/
def getRandomOrgPosLoop (slots : List Nat) (sentinel : Nat) (stream : Nat → Nat) :
    Nat → Nat → Option Nat
  | 0, _ => none
  | fuel + 1, k =>
    let idx := stream k % slots.length
    if slots.getD idx sentinel ≠ sentinel then some idx
    else getRandomOrgPosLoop slots sentinel stream fuel (k + 1)

/-- Number of living (non-sentinel) organisms in a slot list
(`Population::GetNumOrgs`). -/
def livingCount (slots : List Nat) (sentinel : Nat) : Nat :=
  (slots.filter (fun id => id ≠ sentinel)).length

-- ======================= Preprocess (MABE.hpp lines 519-543) =======================

/-- Scanner of `emp::find_paren_match`: starting at position `j` with
`depth` open braces outstanding, return the position of the matching
close brace, or `none` if the string ends first. -/
def parenMatchGo (s : List Char) : Nat → Nat → Option Nat
  | j, depth =>
    if h : j < s.length then
      if s.getD j ' ' = '{' then parenMatchGo s (j + 1) (depth + 1)
      else if s.getD j ' ' = '}' then
        if depth = 1 then some j else parenMatchGo s (j + 1) (depth - 1)
      else parenMatchGo s (j + 1) depth
    else none
  termination_by j _ => s.length - j

/-- `emp::find_paren_match(s, start, brace, brace, false)`: position of the
brace matching the open brace at `start`, or `start` itself when there is
no match. -/
def findParenMatch (s : List Char) (start : Nat) : Nat :=
  match parenMatchGo s (start + 1) 1 with
  | some j => j
  | none => start

/-- Fuel-generalized form of `parenMatchGo_ge`. -/
theorem parenMatchGo_ge_aux (s : List Char) :
    ∀ n j depth k, s.length ≤ j + n → parenMatchGo s j depth = some k → j ≤ k := by
  intro n
  induction n with
  | zero =>
    intro j depth k hn hk
    rw [parenMatchGo] at hk
    split at hk
    · omega
    · cases hk
  | succ n ih =>
    intro j depth k hn hk
    rw [parenMatchGo] at hk
    split at hk
    · split at hk
      · exact le_trans (Nat.le_succ j) (ih (j + 1) _ _ (by omega) hk)
      · split at hk
        · split at hk
          · cases hk; exact le_refl _
          · exact le_trans (Nat.le_succ j) (ih (j + 1) _ _ (by omega) hk)
        · exact le_trans (Nat.le_succ j) (ih (j + 1) _ _ (by omega) hk)
    · cases hk

/-- `parenMatchGo` only ever returns positions at or beyond its scan
start. -/
theorem parenMatchGo_ge (s : List Char) (j depth k : Nat)
    (hk : parenMatchGo s j depth = some k) : j ≤ k :=
  parenMatchGo_ge_aux s s.length j depth k (Nat.le_add_left _ _) hk

/-- Fuel-generalized form of `parenMatchGo_lt`. -/
theorem parenMatchGo_lt_aux (s : List Char) :
    ∀ n j depth k, s.length ≤ j + n → parenMatchGo s j depth = some k →
      k < s.length := by
  intro n
  induction n with
  | zero =>
    intro j depth k hn hk
    rw [parenMatchGo] at hk
    split at hk
    · omega
    · cases hk
  | succ n ih =>
    intro j depth k hn hk
    rw [parenMatchGo] at hk
    split at hk
    · split at hk
      · exact ih (j + 1) _ _ (by omega) hk
      · split at hk
        · split at hk
          · cases hk; assumption
          · exact ih (j + 1) _ _ (by omega) hk
        · exact ih (j + 1) _ _ (by omega) hk
    · cases hk

/-- A position returned by `parenMatchGo` is inside the string. -/
theorem parenMatchGo_lt (s : List Char) (j depth k : Nat)
    (hk : parenMatchGo s j depth = some k) : k < s.length :=
  parenMatchGo_lt_aux s s.length j depth k (Nat.le_add_left _ _) hk

/-- When `findParenMatch` reports a match (result different from `start`),
the matching position lies strictly beyond `start` and inside the
string. -/
theorem findParenMatch_spec (s : List Char) (start : Nat)
    (h : findParenMatch s start ≠ start) :
    start + 1 ≤ findParenMatch s start ∧ findParenMatch s start < s.length := by
  unfold findParenMatch at h ⊢
  cases hk : parenMatchGo s (start + 1) 1 with
  | none => simp [hk] at h
  | some k =>
    simp only [hk]
    exact ⟨parenMatchGo_ge s _ _ _ hk, parenMatchGo_lt s _ _ _ hk⟩

/-- The scanning loop of `MABE::Preprocess` (MABE.hpp lines 519-543),
working on the current string `s` from index `i`.  Characters other than
the dollar sign are skipped; scanning stops when fewer than two characters
remain after a dollar sign; a double dollar sign is compressed by erasing
one of the pair and continuing past the other; a dollar sign not followed
by an open brace is skipped; an open brace without a matching close brace
returns the string as processed so far; otherwise the text between the
braces is executed by the configuration engine (`exec`) and the whole tag
is replaced by the result, scanning resuming past the replacement.  The
engine call `config.Execute` belongs to the excluded configuration
subsystem and is a parameter. -/
def preprocessGo (exec : List Char → List Char) : List Char → Nat → List Char
  | s, i =>
    if h : i < s.length then
      if s.getD i ' ' ≠ '$' then preprocessGo exec s (i + 1)
      else if s.length ≤ i + 2 then s
      else if s.getD (i + 1) ' ' = '$' then preprocessGo exec (s.eraseIdx i) (i + 1)
      else if s.getD (i + 1) ' ' ≠ '{' then preprocessGo exec s (i + 1)
      else if hep : findParenMatch s (i + 1) = i + 1 then s
      else
        preprocessGo exec
          ((s.take i) ++ exec ((s.drop (i + 2)).take (findParenMatch s (i + 1) - (i + 2))) ++
            (s.drop (findParenMatch s (i + 1) + 1)))
          (i + (exec ((s.drop (i + 2)).take (findParenMatch s (i + 1) - (i + 2)))).length + 1)
    else s
  termination_by s i => s.length - i
  decreasing_by
  · omega
  · simp only [List.length_eraseIdx, h, if_true]; omega
  · omega
  · have hs := findParenMatch_spec s (i + 1) hep
    simp only [List.length_append, List.length_take, List.length_drop]
    omega

/-- `MABE::Preprocess` (MABE.hpp lines 519-543): find any instances of a
brace-tag and substitute the evaluation of its contents, starting the scan
at index 0 of a copy of the input. -/
def Preprocess (exec : List Char → List Char) (s : List Char) : List Char :=
  preprocessGo exec s 0

-- ======================= TraitInfo (TraitInfo.h) =======================

/-- The enumerator names of `TraitInfo::Access`, exactly as declared in
TraitInfo.h lines 56-63. -/
def traitAccessEnumerators : List String :=
  ["UNKNOWN", "PRIVATE", "OWNED", "SHARED", "REQUIRED", "NUM_ACCESS"]

/-- The six trait access modes named by the specification (spec section
4.2): PRIVATE, OWNED, SHARED, REQUIRED, GENERATED, OPTIONAL. -/
def specAccessModes : List String :=
  ["PRIVATE", "OWNED", "SHARED", "REQUIRED", "GENERATED", "OPTIONAL"]

/-- The access modes referenced by the registration helpers in Module.hpp
(`using Access = TraitInfo::Access`): lines 123, 126, 129, 132, 135, 138
and 265, 272, 279, 285, 292, 299 use these members of the enum. -/
def moduleReferencedAccessModes : List String :=
  ["PRIVATE", "OWNED", "GENERATED", "SHARED", "REQUIRED", "OPTIONAL"]

/-- Mutate the organism held at slot `i` of population `p` in place:
overwrite its heap value with a new genome.  Used to express clone
independence for `CopyPop`. -/
def mutateOrgAt (st : WorldState) (p i : Nat) (g : Genome) : WorldState :=
  { st with heap := fun j => if j = slotAt st p i then some g else st.heap j }

/-- A concrete two-population world used by the `CopyPop` witness: the
source population holds one living organism (id 1, genome 42) at index 1
of three slots; the destination holds one living organism (id 3, genome
7). -/
def wSt1 : WorldState :=
  { pops := [⟨"src", [0, 1, 0]⟩, ⟨"dst", [3]⟩]
  , emptyOrg := 0
  , heap := fun j => if j = 1 then some 42 else if j = 3 then some 7 else none
  , nextId := 4
  , trace := []
  , errors := []
  , modules := []
  , sigLists := []
  , rescanSignals := true }

-- Event discriminators (used to count signal firings in a trace).

/-- Is this event an OnPlacement signal? -/
def isOnPlacement : Event → Bool
  | .onPlacement _ => true
  | _ => false

/-- Is this event an OnInjectReady signal? -/
def isOnInjectReady : Event → Bool
  | .onInjectReady _ _ => true
  | _ => false

/-- Is this event a BeforeRepro signal? -/
def isBeforeRepro : Event → Bool
  | .beforeRepro _ => true
  | _ => false

/-- Is this event an OnOffspringReady signal? -/
def isOnOffspringReady : Event → Bool
  | .onOffspringReady _ _ _ => true
  | _ => false

/-- A placement strategy that always rejects. -/
def pfInvalid : PlaceInjectFn := fun pops _ => (pops, OrgPosition.invalid)

/-- A placement strategy that always proposes slot (0, 0). -/
def pfSlot0 : PlaceInjectFn := fun pops _ => (pops, some (0, 0))

/-- A birth placement strategy that always rejects. -/
def pbInvalid : PlaceBirthFn := fun pops _ _ => (pops, OrgPosition.invalid)

/-- A birth placement strategy that always proposes slot (0, 0). -/
def pbSlot0 : PlaceBirthFn := fun pops _ _ => (pops, some (0, 0))

/-- A small concrete world used by several witnesses: one population with
a sentinel slot and one living organism, two modules with differing
capability sets, two signal channels. -/
def wSt0 : WorldState :=
  { pops := [⟨"main", [0, 1]⟩]
  , emptyOrg := 0
  , heap := fun j => if j = 1 then some 42 else none
  , nextId := 2
  , trace := []
  , errors := []
  , modules := [⟨0, [true, false]⟩, ⟨1, [true, true]⟩]
  , sigLists := [[], []]
  , rescanSignals := true }

-- ======================= Basic lemmas about the primitives =======================

@[simp] theorem pushEvent_trace (st : WorldState) (e : Event) :
    (pushEvent st e).trace = st.trace ++ [e] := rfl

@[simp] theorem pushEvent_errors (st : WorldState) (e : Event) :
    (pushEvent st e).errors = st.errors := rfl

@[simp] theorem pushEvent_pops (st : WorldState) (e : Event) :
    (pushEvent st e).pops = st.pops := rfl

@[simp] theorem pushEvent_heap (st : WorldState) (e : Event) :
    (pushEvent st e).heap = st.heap := rfl

@[simp] theorem pushEvent_emptyOrg (st : WorldState) (e : Event) :
    (pushEvent st e).emptyOrg = st.emptyOrg := rfl

@[simp] theorem pushEvent_nextId (st : WorldState) (e : Event) :
    (pushEvent st e).nextId = st.nextId := rfl

@[simp] theorem addError_trace (st : WorldState) (m : String) :
    (addError st m).trace = st.trace := rfl

@[simp] theorem addError_errors (st : WorldState) (m : String) :
    (addError st m).errors = st.errors ++ [m] := rfl

@[simp] theorem addError_pops (st : WorldState) (m : String) :
    (addError st m).pops = st.pops := rfl

@[simp] theorem addError_heap (st : WorldState) (m : String) :
    (addError st m).heap = st.heap := rfl

@[simp] theorem addError_emptyOrg (st : WorldState) (m : String) :
    (addError st m).emptyOrg = st.emptyOrg := rfl

@[simp] theorem addError_nextId (st : WorldState) (m : String) :
    (addError st m).nextId = st.nextId := rfl

@[simp] theorem allocOrg_fst_trace (st : WorldState) (g : Genome) :
    (allocOrg st g).1.trace = st.trace := rfl

@[simp] theorem allocOrg_fst_errors (st : WorldState) (g : Genome) :
    (allocOrg st g).1.errors = st.errors := rfl

@[simp] theorem allocOrg_fst_pops (st : WorldState) (g : Genome) :
    (allocOrg st g).1.pops = st.pops := rfl

@[simp] theorem allocOrg_fst_emptyOrg (st : WorldState) (g : Genome) :
    (allocOrg st g).1.emptyOrg = st.emptyOrg := rfl

@[simp] theorem allocOrg_fst_nextId (st : WorldState) (g : Genome) :
    (allocOrg st g).1.nextId = st.nextId + 1 := rfl

@[simp] theorem allocOrg_snd (st : WorldState) (g : Genome) :
    (allocOrg st g).2 = st.nextId := rfl

theorem allocOrg_heap_self (st : WorldState) (g : Genome) :
    (allocOrg st g).1.heap st.nextId = some g := by simp [allocOrg]

theorem allocOrg_heap_other (st : WorldState) (g : Genome) (j : Nat)
    (hj : j ≠ st.nextId) : (allocOrg st g).1.heap j = st.heap j := by
  simp [allocOrg, hj]

@[simp] theorem releaseOrg_trace (st : WorldState) (id : Nat) :
    (releaseOrg st id).trace = st.trace := rfl

@[simp] theorem releaseOrg_errors (st : WorldState) (id : Nat) :
    (releaseOrg st id).errors = st.errors := rfl

@[simp] theorem releaseOrg_pops (st : WorldState) (id : Nat) :
    (releaseOrg st id).pops = st.pops := rfl

@[simp] theorem releaseOrg_emptyOrg (st : WorldState) (id : Nat) :
    (releaseOrg st id).emptyOrg = st.emptyOrg := rfl

@[simp] theorem releaseOrg_nextId (st : WorldState) (id : Nat) :
    (releaseOrg st id).nextId = st.nextId := rfl

theorem releaseOrg_heap_self (st : WorldState) (id : Nat) :
    (releaseOrg st id).heap id = none := by simp [releaseOrg]

theorem releaseOrg_heap_other (st : WorldState) (id j : Nat) (hj : j ≠ id) :
    (releaseOrg st id).heap j = st.heap j := by simp [releaseOrg, hj]

@[simp] theorem setSlot_trace (st : WorldState) (p i id : Nat) :
    (setSlot st p i id).trace = st.trace := by
  unfold setSlot; cases st.pops.get? p <;> rfl

@[simp] theorem setSlot_errors (st : WorldState) (p i id : Nat) :
    (setSlot st p i id).errors = st.errors := by
  unfold setSlot; cases st.pops.get? p <;> rfl

@[simp] theorem setSlot_heap (st : WorldState) (p i id : Nat) :
    (setSlot st p i id).heap = st.heap := by
  unfold setSlot; cases st.pops.get? p <;> rfl

@[simp] theorem setSlot_emptyOrg (st : WorldState) (p i id : Nat) :
    (setSlot st p i id).emptyOrg = st.emptyOrg := by
  unfold setSlot; cases st.pops.get? p <;> rfl

@[simp] theorem setSlot_nextId (st : WorldState) (p i id : Nat) :
    (setSlot st p i id).nextId = st.nextId := by
  unfold setSlot; cases st.pops.get? p <;> rfl

@[simp] theorem setSlot_pops_length (st : WorldState) (p i id : Nat) :
    (setSlot st p i id).pops.length = st.pops.length := by
  unfold setSlot; cases st.pops.get? p <;> simp

theorem pops_get?_getD (st : WorldState) (p : Nat) (hp : p < st.pops.length) :
    st.pops.get? p = some (st.pops.getD p default) := by
  rw [List.get?_eq_getElem?, List.getElem?_eq_getElem hp,
    List.getD_eq_getElem _ _ hp]

theorem setSlot_pops_oob (st : WorldState) (p i id : Nat)
    (hp : st.pops.length ≤ p) : setSlot st p i id = st := by
  unfold setSlot
  rw [List.get?_eq_getElem?, List.getElem?_len_le hp]

theorem setSlot_popAt_self (st : WorldState) (p i id : Nat)
    (hp : p < st.pops.length) :
    (setSlot st p i id).pops.getD p default =
      { st.pops.getD p default with
        slots := (st.pops.getD p default).slots.set i id } := by
  unfold setSlot
  rw [pops_get?_getD st p hp]
  simp only
  rw [List.getD_eq_getElem _ _ (by simpa using hp), List.getElem_set_self]

theorem setSlot_popAt_ne (st : WorldState) (p i id q : Nat) (hq : p ≠ q) :
    (setSlot st p i id).pops.getD q default = st.pops.getD q default := by
  unfold setSlot
  cases hg : st.pops.get? p with
  | none => rfl
  | some pop =>
    simp only
    rw [List.getD_eq_getD_get?, List.getD_eq_getD_get?, List.get?_eq_getElem?,
      List.get?_eq_getElem?, List.getElem?_set_ne hq]

theorem slotAt_setSlot_self (st : WorldState) (p i id : Nat)
    (hp : p < st.pops.length)
    (hi : i < ((st.pops.getD p default).slots).length) :
    slotAt (setSlot st p i id) p i = id := by
  unfold slotAt
  rw [setSlot_popAt_self st p i id hp, setSlot_emptyOrg]
  simp only
  rw [List.getD_eq_getElem _ _ (by simpa using hi), List.getElem_set_self]

theorem slotAt_setSlot_ne (st : WorldState) (p i id q j : Nat)
    (h : p ≠ q ∨ i ≠ j) : slotAt (setSlot st p i id) q j = slotAt st q j := by
  unfold slotAt
  rw [setSlot_emptyOrg]
  rcases h with h | h
  · rw [setSlot_popAt_ne st p i id q h]
  · by_cases hpq : p = q
    · subst hpq
      by_cases hp : p < st.pops.length
      · rw [setSlot_popAt_self st p i id hp]
        simp only [List.getD_eq_getD_get?, List.get?_eq_getElem?]
        rw [List.getElem?_set_ne h]
      · rw [setSlot_pops_oob st p i id (by omega)]
    · rw [setSlot_popAt_ne st p i id q hpq]

theorem setSlot_slotsLen (st : WorldState) (p i id q : Nat) :
    (((setSlot st p i id).pops.getD q default).slots).length =
      ((st.pops.getD q default).slots).length := by
  by_cases hpq : p = q
  · subst hpq
    by_cases hp : p < st.pops.length
    · rw [setSlot_popAt_self st p i id hp]
      simp
    · rw [setSlot_pops_oob st p i id (by omega)]
  · rw [setSlot_popAt_ne st p i id q hpq]

theorem setSlot_popName (st : WorldState) (p i id q : Nat) :
    ((setSlot st p i id).pops.getD q default).name =
      ((st.pops.getD q default)).name := by
  by_cases hpq : p = q
  · subst hpq
    by_cases hp : p < st.pops.length
    · rw [setSlot_popAt_self st p i id hp]
    · rw [setSlot_pops_oob st p i id (by omega)]
  · rw [setSlot_popAt_ne st p i id q hpq]

-- Preservation facts for ClearOrgAt.

theorem clearOrgAt_errors (st : WorldState) (pos : OrgPosition) :
    (ClearOrgAt st pos).errors = st.errors := by
  rcases pos with _ | ⟨p, i⟩
  · rfl
  · unfold ClearOrgAt
    simp only
    split <;> simp

theorem clearOrgAt_emptyOrg (st : WorldState) (pos : OrgPosition) :
    (ClearOrgAt st pos).emptyOrg = st.emptyOrg := by
  rcases pos with _ | ⟨p, i⟩
  · rfl
  · unfold ClearOrgAt
    simp only
    split <;> simp

theorem clearOrgAt_nextId (st : WorldState) (pos : OrgPosition) :
    (ClearOrgAt st pos).nextId = st.nextId := by
  rcases pos with _ | ⟨p, i⟩
  · rfl
  · unfold ClearOrgAt
    simp only
    split <;> simp

theorem clearOrgAt_pops_length (st : WorldState) (pos : OrgPosition) :
    (ClearOrgAt st pos).pops.length = st.pops.length := by
  rcases pos with _ | ⟨p, i⟩
  · rfl
  · unfold ClearOrgAt
    simp only
    split <;> simp

theorem clearOrgAt_slotsLen (st : WorldState) (pos : OrgPosition) (q : Nat) :
    (((ClearOrgAt st pos).pops.getD q default).slots).length =
      ((st.pops.getD q default).slots).length := by
  rcases pos with _ | ⟨p, i⟩
  · rfl
  · unfold ClearOrgAt
    simp only
    split
    · show (((releaseOrg _ _).pops.getD q default).slots).length = _
      rw [releaseOrg_pops]
      show (((setSlot (pushEvent st _) p i _).pops.getD q default).slots).length = _
      rw [setSlot_slotsLen]
      rfl
    · rfl

/-- `ClearOrgAt` on a slot already holding the sentinel is a no-op. -/
theorem clearOrgAt_empty (st : WorldState) (p i : Nat)
    (h : slotAt st p i = st.emptyOrg) : ClearOrgAt st (some (p, i)) = st := by
  unfold ClearOrgAt
  simp only
  rw [if_neg]
  simpa using h

/-- `ClearOrgAt` on an occupied slot: BeforeDeath fires, then the slot is
replaced by the sentinel and the organism is released. -/
theorem clearOrgAt_occupied (st : WorldState) (p i : Nat)
    (hocc : slotAt st p i ≠ st.emptyOrg) :
    (ClearOrgAt st (some (p, i))).trace = st.trace ++ [.beforeDeath (some (p, i))] ∧
    (ClearOrgAt st (some (p, i))).heap (slotAt st p i) = none ∧
    (∀ id, id ≠ slotAt st p i →
      (ClearOrgAt st (some (p, i))).heap id = st.heap id) ∧
    (p < st.pops.length → i < ((st.pops.getD p default).slots).length →
      slotAt (ClearOrgAt st (some (p, i))) p i = st.emptyOrg) ∧
    (∀ q j, p ≠ q ∨ i ≠ j →
      slotAt (ClearOrgAt st (some (p, i))) q j = slotAt st q j) := by
  unfold ClearOrgAt
  simp only
  rw [if_pos (by simpa using hocc)]
  refine ⟨by simp, ?_, ?_, ?_, ?_⟩
  · rw [releaseOrg_heap_self]
  · intro id hid
    rw [releaseOrg_heap_other _ _ _ hid]
    simp [setSlot_heap]
  · intro hp hi
    unfold slotAt
    rw [releaseOrg_pops, releaseOrg_emptyOrg]
    have := slotAt_setSlot_self (pushEvent st (.beforeDeath (some (p, i)))) p i
      st.emptyOrg (by simpa using hp) (by simpa using hi)
    unfold slotAt at this
    simpa using this
  · intro q j hqj
    unfold slotAt
    rw [releaseOrg_pops, releaseOrg_emptyOrg]
    have := slotAt_setSlot_ne (pushEvent st (.beforeDeath (some (p, i)))) p i
      st.emptyOrg q j hqj
    unfold slotAt at this
    simpa using this

/-- `SwapOrgs` on two in-bounds positions: BeforeSwap and OnSwap fire
around the exchange, the heap/errors/sentinel stay untouched, and the two
slot contents are exchanged. -/
theorem swapOrgs_spec (st : WorldState) (a i b j : Nat)
    (ha : a < st.pops.length)
    (hi : i < ((st.pops.getD a default).slots).length)
    (hb : b < st.pops.length)
    (hj : j < ((st.pops.getD b default).slots).length) :
    (SwapOrgs st (some (a, i)) (some (b, j))).trace =
      st.trace ++ [.beforeSwap (some (a, i)) (some (b, j)),
        .onSwap (some (a, i)) (some (b, j))] ∧
    (SwapOrgs st (some (a, i)) (some (b, j))).heap = st.heap ∧
    (SwapOrgs st (some (a, i)) (some (b, j))).emptyOrg = st.emptyOrg ∧
    (SwapOrgs st (some (a, i)) (some (b, j))).errors = st.errors ∧
    slotAt (SwapOrgs st (some (a, i)) (some (b, j))) a i = slotAt st b j ∧
    slotAt (SwapOrgs st (some (a, i)) (some (b, j))) b j = slotAt st a i := by
  unfold SwapOrgs
  simp only
  set st2 := pushEvent st (.beforeSwap (some (a, i)) (some (b, j))) with hst2
  have ha2 : a < st2.pops.length := ha
  have hi2 : i < ((st2.pops.getD a default).slots).length := hi
  have hbS : b < (setSlot st2 a i (slotAt st2 b j)).pops.length := by
    rw [setSlot_pops_length]; exact hb
  have hjS : j < (((setSlot st2 a i (slotAt st2 b j)).pops.getD b default).slots).length := by
    rw [setSlot_slotsLen]
    show j < ((st.pops.getD b default).slots).length
    exact hj
  refine ⟨by simp [hst2], by simp [hst2], by simp [hst2], by simp [hst2], ?_, ?_⟩
  · show slotAt (pushEvent
      (setSlot (setSlot st2 a i (slotAt st2 b j)) b j (slotAt st2 a i))
      (.onSwap (some (a, i)) (some (b, j)))) a i = slotAt st b j
    show slotAt
      (setSlot (setSlot st2 a i (slotAt st2 b j)) b j (slotAt st2 a i)) a i =
        slotAt st b j
    by_cases heq : b = a ∧ j = i
    · obtain ⟨hba, hji⟩ := heq
      subst hba
      subst hji
      exact slotAt_setSlot_self (setSlot st2 b j (slotAt st2 b j)) b j
        (slotAt st2 b j) hbS hjS
    · have hne : b ≠ a ∨ j ≠ i := by tauto
      rw [slotAt_setSlot_ne _ b j _ a i hne]
      exact slotAt_setSlot_self st2 a i (slotAt st2 b j) ha2 hi2
  · show slotAt (pushEvent
      (setSlot (setSlot st2 a i (slotAt st2 b j)) b j (slotAt st2 a i))
      (.onSwap (some (a, i)) (some (b, j)))) b j = slotAt st a i
    show slotAt
      (setSlot (setSlot st2 a i (slotAt st2 b j)) b j (slotAt st2 a i)) b j =
        slotAt st a i
    exact slotAt_setSlot_self (setSlot st2 a i (slotAt st2 b j)) b j
      (slotAt st2 a i) hbS hjS

-- ======================= C3 =======================

/-- C3: for valid positions, `MoveOrg(from, to)` is exactly
`ClearOrgAt(to)` followed by `SwapOrgs(from, to)` (and agrees with the
spec-worded composition); whatever real organism occupied `to` is
destroyed, with BeforeDeath firing for it before the swap overwrites its
slot (the trace is exactly BeforeDeath, BeforeSwap, OnSwap, in that
order, and the old occupant's heap entry is gone); and afterwards `from`
holds the shared sentinel id — it aliases the sentinel organism, not a
fresh empty instance. -/
theorem moveOrg_clear_then_swap (st : WorldState) (a i b j : Nat)
    (ha : a < st.pops.length)
    (hi : i < ((st.pops.getD a default).slots).length)
    (hb : b < st.pops.length)
    (hj : j < ((st.pops.getD b default).slots).length) :
    MoveOrg st (some (a, i)) (some (b, j)) =
      SwapOrgs (ClearOrgAt st (some (b, j))) (some (a, i)) (some (b, j)) ∧
    MoveOrg st (some (a, i)) (some (b, j)) =
      MoveOrg_specWords st (some (a, i)) (some (b, j)) ∧
    slotAt (MoveOrg st (some (a, i)) (some (b, j))) a i = st.emptyOrg ∧
    (MoveOrg st (some (a, i)) (some (b, j))).emptyOrg = st.emptyOrg ∧
    (slotAt st b j ≠ st.emptyOrg →
      (MoveOrg st (some (a, i)) (some (b, j))).trace =
        st.trace ++ [.beforeDeath (some (b, j)),
          .beforeSwap (some (a, i)) (some (b, j)),
          .onSwap (some (a, i)) (some (b, j))] ∧
      (MoveOrg st (some (a, i)) (some (b, j))).heap (slotAt st b j) = none) := by
  set st1 := ClearOrgAt st (some (b, j)) with hst1
  have ha1 : a < st1.pops.length := by rw [clearOrgAt_pops_length]; exact ha
  have hi1 : i < ((st1.pops.getD a default).slots).length := by
    rw [clearOrgAt_slotsLen]; exact hi
  have hb1 : b < st1.pops.length := by rw [clearOrgAt_pops_length]; exact hb
  have hj1 : j < ((st1.pops.getD b default).slots).length := by
    rw [clearOrgAt_slotsLen]; exact hj
  obtain ⟨htr, hheap, hempty, herr, hsl_ai, hsl_bj⟩ :=
    swapOrgs_spec st1 a i b j ha1 hi1 hb1 hj1
  have hclear_empty : slotAt st1 b j = st.emptyOrg := by
    by_cases hocc : slotAt st b j = st.emptyOrg
    · rw [hst1, clearOrgAt_empty st b j hocc]; exact hocc
    · exact (clearOrgAt_occupied st b j hocc).2.2.2.1 hb hj
  refine ⟨rfl, rfl, ?_, ?_, ?_⟩
  · show slotAt (SwapOrgs st1 (some (a, i)) (some (b, j))) a i = st.emptyOrg
    rw [hsl_ai, hclear_empty]
  · show (SwapOrgs st1 (some (a, i)) (some (b, j))).emptyOrg = st.emptyOrg
    rw [hempty, hst1, clearOrgAt_emptyOrg]
  · intro hocc
    obtain ⟨htr1, hrel, _, _, _⟩ := clearOrgAt_occupied st b j hocc
    constructor
    · show (SwapOrgs st1 (some (a, i)) (some (b, j))).trace = _
      rw [htr, hst1, htr1]
      simp
    · show (SwapOrgs st1 (some (a, i)) (some (b, j))).heap (slotAt st b j) = none
      rw [hheap, hst1]
      exact hrel

/-- Witness for C3: in the concrete world, moving the sentinel slot (0,0)
onto the occupied slot (0,1) leaves slot (0,0) aliasing the sentinel. -/
theorem moveOrg_clear_then_swap_witness :
    (0 < wSt0.pops.length ∧ 0 < ((wSt0.pops.getD 0 default).slots).length ∧
      1 < ((wSt0.pops.getD 0 default).slots).length ∧
      slotAt wSt0 0 1 ≠ wSt0.emptyOrg) ∧
    slotAt (MoveOrg wSt0 (some (0, 0)) (some (0, 1))) 0 0 = wSt0.emptyOrg := by
  refine ⟨⟨by decide, by decide, by decide, by decide⟩, ?_⟩
  exact (moveOrg_clear_then_swap wSt0 0 0 0 1 (by decide) (by decide) (by decide)
    (by decide)).2.2.1

-- Further preservation facts for ClearOrgAt, used by ClearPop/teardown.

theorem clearOrgAt_modules (st : WorldState) (pos : OrgPosition) :
    (ClearOrgAt st pos).modules = st.modules := by
  rcases pos with _ | ⟨p, i⟩
  · rfl
  · unfold ClearOrgAt
    simp only
    split <;> rfl

theorem clearOrgAt_slot_ne (st : WorldState) (p i q j : Nat)
    (h : p ≠ q ∨ i ≠ j) :
    slotAt (ClearOrgAt st (some (p, i))) q j = slotAt st q j := by
  by_cases hocc : slotAt st p i = st.emptyOrg
  · rw [clearOrgAt_empty st p i hocc]
  · exact (clearOrgAt_occupied st p i hocc).2.2.2.2 q j h

theorem clearOrgAt_popAt_ne (st : WorldState) (p i q : Nat) (h : q ≠ p) :
    (ClearOrgAt st (some (p, i))).pops.getD q default =
      st.pops.getD q default := by
  by_cases hocc : slotAt st p i = st.emptyOrg
  · rw [clearOrgAt_empty st p i hocc]
  · unfold ClearOrgAt
    simp only
    rw [if_pos (by simpa using hocc)]
    show (setSlot (pushEvent st _) p i st.emptyOrg).pops.getD q default = _
    rw [setSlot_popAt_ne _ p i _ q (fun hc => h hc.symm)]
    rfl

theorem clearOrgAt_heap_mono (st : WorldState) (pos : OrgPosition) (id : Nat) :
    (ClearOrgAt st pos).heap id = st.heap id ∨
      (ClearOrgAt st pos).heap id = none := by
  rcases pos with _ | ⟨p, i⟩
  · exact Or.inl rfl
  · by_cases hocc : slotAt st p i = st.emptyOrg
    · rw [clearOrgAt_empty st p i hocc]
      exact Or.inl rfl
    · by_cases hid : id = slotAt st p i
      · subst hid
        exact Or.inr (clearOrgAt_occupied st p i hocc).2.1
      · exact Or.inl ((clearOrgAt_occupied st p i hocc).2.2.1 id hid)

/-- An out-of-bounds or out-of-population slot read returns the
sentinel. -/
theorem slotAt_oob (st : WorldState) (p k : Nat)
    (h : ((st.pops.getD p default).slots).length ≤ k) :
    slotAt st p k = st.emptyOrg :=
  List.getD_eq_default _ _ h

/-- Per-index invariant of the `ClearPop` loop: the trace grows by exactly
the BeforeDeath events of the occupied positions in the processed range,
every organism living in the processed range is released, the heap only
ever loses entries, other populations and all the bookkeeping fields stay
untouched. -/
theorem clearFrom_spec (p : Nat) :
    ∀ n i st,
    ∃ d, (clearFrom p n i st).trace = st.trace ++ d ∧
      (∀ e ∈ d, ∃ k, i ≤ k ∧ k < i + n ∧ e = Event.beforeDeath (some (p, k))) ∧
      (∀ k, i ≤ k → k < i + n → slotAt st p k ≠ st.emptyOrg →
        Event.beforeDeath (some (p, k)) ∈ d ∧
        (clearFrom p n i st).heap (slotAt st p k) = none) ∧
      (∀ id, (clearFrom p n i st).heap id = st.heap id ∨
        (clearFrom p n i st).heap id = none) ∧
      (∀ q, q ≠ p → (clearFrom p n i st).pops.getD q default =
        st.pops.getD q default) ∧
      (∀ k, k < i ∨ i + n ≤ k →
        slotAt (clearFrom p n i st) p k = slotAt st p k) ∧
      (clearFrom p n i st).errors = st.errors ∧
      (clearFrom p n i st).emptyOrg = st.emptyOrg ∧
      (clearFrom p n i st).nextId = st.nextId ∧
      (clearFrom p n i st).modules = st.modules ∧
      (clearFrom p n i st).pops.length = st.pops.length ∧
      (∀ q, (((clearFrom p n i st).pops.getD q default).slots).length =
        ((st.pops.getD q default).slots).length) := by
  intro n
  induction n with
  | zero =>
    intro i st
    refine ⟨[], by simp [clearFrom], by simp, ?_, fun id => Or.inl rfl,
      fun q _ => rfl, fun k _ => rfl, rfl, rfl, rfl, rfl, rfl, fun q => rfl⟩
    intro k hik hkn
    omega
  | succ n ih =>
    intro i st
    have hunf : clearFrom p (n + 1) i st =
        clearFrom p n (i + 1) (ClearOrgAt st (some (p, i))) := rfl
    rw [hunf]
    by_cases hocc : slotAt st p i = st.emptyOrg
    · rw [clearOrgAt_empty st p i hocc]
      obtain ⟨d1, htr1, hshape1, hrel1, hmono1, hpop1, hslot1, herr1, hemp1,
        hnext1, hmod1, hlen1, hslen1⟩ := ih (i + 1) st
      refine ⟨d1, htr1, ?_, ?_, hmono1, hpop1, ?_, herr1, hemp1, hnext1, hmod1,
        hlen1, hslen1⟩
      · intro e he
        obtain ⟨k, h1, h2, h3⟩ := hshape1 e he
        exact ⟨k, by omega, by omega, h3⟩
      · intro k hik hkn hkocc
        have hki : k ≠ i := fun hc => hkocc (hc ▸ hocc)
        exact hrel1 k (by omega) (by omega) hkocc
      · intro k hk
        exact hslot1 k (by omega)
    · set st1 := ClearOrgAt st (some (p, i)) with hst1
      obtain ⟨d1, htr1, hshape1, hrel1, hmono1, hpop1, hslot1, herr1, hemp1,
        hnext1, hmod1, hlen1, hslen1⟩ := ih (i + 1) st1
      obtain ⟨htrC, hrelC, hheapC, _, hslotC⟩ := clearOrgAt_occupied st p i hocc
      refine ⟨Event.beforeDeath (some (p, i)) :: d1, ?_, ?_, ?_, ?_, ?_, ?_,
        ?_, ?_, ?_, ?_, ?_, ?_⟩
      · rw [htr1, hst1, htrC]
        simp
      · intro e he
        rcases List.mem_cons.1 he with rfl | he1
        · exact ⟨i, by omega, by omega, rfl⟩
        · obtain ⟨k, h1, h2, h3⟩ := hshape1 e he1
          exact ⟨k, by omega, by omega, h3⟩
      · intro k hik hkn hkocc
        by_cases hki : k = i
        · subst hki
          refine ⟨List.mem_cons_self _ _, ?_⟩
          rcases hmono1 (slotAt st p k) with h | h
          · rw [h, hst1]; exact hrelC
          · exact h
        · have hs : slotAt st1 p k = slotAt st p k := by
            rw [hst1]; exact clearOrgAt_slot_ne st p i p k (Or.inr (fun hc => hki hc.symm))
          have he : slotAt st1 p k ≠ st1.emptyOrg := by
            rw [hs, hst1, clearOrgAt_emptyOrg]; exact hkocc
          obtain ⟨hmem, hnone⟩ := hrel1 k (by omega) (by omega) he
          rw [hs] at hnone
          exact ⟨List.mem_cons_of_mem _ hmem, hnone⟩
      · intro id
        rcases hmono1 id with h | h
        · rw [h, hst1]
          exact clearOrgAt_heap_mono st (some (p, i)) id
        · exact Or.inr h
      · intro q hq
        rw [hpop1 q hq, hst1, clearOrgAt_popAt_ne st p i q hq]
      · intro k hk
        have : slotAt (clearFrom p n (i + 1) st1) p k = slotAt st1 p k :=
          hslot1 k (by omega)
        rw [this, hst1]
        exact clearOrgAt_slot_ne st p i p k (Or.inr (by omega))
      · rw [herr1, hst1, clearOrgAt_errors]
      · rw [hemp1, hst1, clearOrgAt_emptyOrg]
      · rw [hnext1, hst1, clearOrgAt_nextId]
      · rw [hmod1, hst1, clearOrgAt_modules]
      · rw [hlen1, hst1, clearOrgAt_pops_length]
      · intro q
        rw [hslen1 q, hst1, clearOrgAt_slotsLen]

/-- A slot read in a nonexistent population returns the sentinel. -/
theorem slotAt_pop_oob (st : WorldState) (p k : Nat)
    (h : st.pops.length ≤ p) : slotAt st p k = st.emptyOrg := by
  unfold slotAt
  rw [List.getD_eq_default _ _ h]
  rfl

/-- `ClearPop` summary: the trace grows by the BeforeDeath events of the
population's occupied slots, every living organism of the population is
released, the heap only loses entries, and everything else is
preserved. -/
theorem clearPop_spec (st : WorldState) (p : Nat) :
    ∃ d, (ClearPop st p).trace = st.trace ++ d ∧
      (∀ e ∈ d, ∃ k, e = Event.beforeDeath (some (p, k))) ∧
      (∀ k, slotAt st p k ≠ st.emptyOrg →
        Event.beforeDeath (some (p, k)) ∈ d ∧
        (ClearPop st p).heap (slotAt st p k) = none) ∧
      (∀ id, (ClearPop st p).heap id = st.heap id ∨
        (ClearPop st p).heap id = none) ∧
      (∀ q, q ≠ p → (ClearPop st p).pops.getD q default =
        st.pops.getD q default) ∧
      (ClearPop st p).errors = st.errors ∧
      (ClearPop st p).emptyOrg = st.emptyOrg ∧
      (ClearPop st p).nextId = st.nextId ∧
      (ClearPop st p).modules = st.modules ∧
      (ClearPop st p).pops.length = st.pops.length ∧
      (∀ q, (((ClearPop st p).pops.getD q default).slots).length =
        ((st.pops.getD q default).slots).length) := by
  obtain ⟨d, htr, hshape, hrel, hmono, hpop, hslot, herr, hemp, hnext, hmod,
    hlen, hslen⟩ := clearFrom_spec p ((st.pops.getD p default).slots).length 0 st
  refine ⟨d, htr, ?_, ?_, hmono, hpop, herr, hemp, hnext, hmod, hlen, hslen⟩
  · intro e he
    obtain ⟨k, _, _, h3⟩ := hshape e he
    exact ⟨k, h3⟩
  · intro k hocc
    have hk : k < ((st.pops.getD p default).slots).length := by
      by_contra hge
      exact hocc (slotAt_oob st p k (by omega))
    exact hrel k (by omega) (by omega) hocc

/-- Folding `pushEvent` over a list only appends the mapped events to the
trace. -/
theorem foldl_pushEvent_map (f : Nat → Event) :
    ∀ (l : List Nat) (st : WorldState),
      l.foldl (fun s k => pushEvent s (f k)) st =
        { st with trace := st.trace ++ l.map f } := by
  intro l
  induction l with
  | nil => intro st; simp
  | cons a l ih =>
    intro st
    show l.foldl (fun s k => pushEvent s (f k)) (pushEvent st (f a)) = _
    rw [ih (pushEvent st (f a))]
    show ({ st with trace := (st.trace ++ [f a]) ++ l.map f } : WorldState) = _
    rw [List.append_assoc]
    rfl

/-- The population-deletion loop of the destructor: for a duplicate-free
list of population ids, each listed population is cleared (BeforeDeath
fires for every living organism, which is released) and then freed, in
order; the emitted events are only BeforeDeath and FreePop events; the
heap only loses entries; populations not listed are untouched. -/
theorem destructPops_spec :
    ∀ (ps : List Nat) (st : WorldState), ps.Nodup →
    ∃ d, (ps.foldl (fun s q => pushEvent (ClearPop s q) (.freePop q)) st).trace =
        st.trace ++ d ∧
      (∀ e ∈ d, (∃ q k, e = Event.beforeDeath (some (q, k))) ∨
        (∃ q, e = Event.freePop q ∧ q ∈ ps)) ∧
      (∀ q, q ∈ ps → Event.freePop q ∈ d) ∧
      (∀ q k, q ∈ ps → slotAt st q k ≠ st.emptyOrg →
        Event.beforeDeath (some (q, k)) ∈ d ∧
        (ps.foldl (fun s q => pushEvent (ClearPop s q) (.freePop q)) st).heap
          (slotAt st q k) = none) ∧
      (∀ id, (ps.foldl (fun s q => pushEvent (ClearPop s q) (.freePop q)) st).heap id =
          st.heap id ∨
        (ps.foldl (fun s q => pushEvent (ClearPop s q) (.freePop q)) st).heap id = none) ∧
      (ps.foldl (fun s q => pushEvent (ClearPop s q) (.freePop q)) st).emptyOrg =
        st.emptyOrg ∧
      (∀ q, q ∉ ps →
        (ps.foldl (fun s q => pushEvent (ClearPop s q) (.freePop q)) st).pops.getD q default =
          st.pops.getD q default) := by
  intro ps
  induction ps with
  | nil =>
    intro st _
    exact ⟨[], by simp, by simp, by simp, by simp, fun id => Or.inl rfl, rfl,
      fun q _ => rfl⟩
  | cons q0 rest ih =>
    intro st hnd
    have hq0 : q0 ∉ rest := (List.nodup_cons.1 hnd).1
    have hndr : rest.Nodup := (List.nodup_cons.1 hnd).2
    obtain ⟨dq, htrq, hshapeq, hrelq, hmonoq, hpopq, herrq, hempq, hnextq,
      hmodq, hlenq, hslenq⟩ := clearPop_spec st q0
    set st1 := pushEvent (ClearPop st q0) (.freePop q0) with hst1
    obtain ⟨dr, htrr, hshaper, hfreer, hrelr, hmonor, hempr, hpopr⟩ := ih st1 hndr
    have hslot1 : ∀ q k, q ≠ q0 → slotAt st1 q k = slotAt st q k := by
      intro q k hq
      show ((st1.pops.getD q default).slots).getD k st1.emptyOrg = _
      rw [hst1]
      show (((ClearPop st q0).pops.getD q default).slots).getD k
        ((ClearPop st q0).emptyOrg) = _
      rw [hpopq q hq, hempq]
      rfl
    have hemp1 : st1.emptyOrg = st.emptyOrg := by rw [hst1]; simpa using hempq
    refine ⟨dq ++ Event.freePop q0 :: dr, ?_, ?_, ?_, ?_, ?_, ?_, ?_⟩
    · show (rest.foldl _ st1).trace = _
      rw [htrr, hst1]
      simp only [pushEvent_trace, htrq]
      simp
    · intro e he
      rcases List.mem_append.1 he with hq | hq
      · obtain ⟨k, hk⟩ := hshapeq e hq
        exact Or.inl ⟨q0, k, hk⟩
      · rcases List.mem_cons.1 hq with rfl | hq
        · exact Or.inr ⟨q0, rfl, List.mem_cons_self _ _⟩
        · rcases hshaper e hq with h | ⟨q, hq1, hq2⟩
          · exact Or.inl h
          · exact Or.inr ⟨q, hq1, List.mem_cons_of_mem _ hq2⟩
    · intro q hq
      rcases List.mem_cons.1 hq with rfl | hq
      · exact List.mem_append.2 (Or.inr (List.mem_cons_self _ _))
      · exact List.mem_append.2 (Or.inr (List.mem_cons_of_mem _ (hfreer q hq)))
    · intro q k hq hocc
      rcases List.mem_cons.1 hq with rfl | hq
      · obtain ⟨hmem, hnone⟩ := hrelq k hocc
        refine ⟨List.mem_append.2 (Or.inl hmem), ?_⟩
        show (rest.foldl _ st1).heap (slotAt st q k) = none
        rcases hmonor (slotAt st q k) with h | h
        · rw [h, hst1]
          simpa using hnone
        · exact h
      · have hqne : q ≠ q0 := fun hc => hq0 (hc ▸ hq)
        have hocc1 : slotAt st1 q k ≠ st1.emptyOrg := by
          rw [hslot1 q k hqne, hemp1]; exact hocc
        obtain ⟨hmem, hnone⟩ := hrelr q k hq hocc1
        rw [hslot1 q k hqne] at hnone
        exact ⟨List.mem_append.2 (Or.inr (List.mem_cons_of_mem _ hmem)), hnone⟩
    · intro id
      show ((rest.foldl (fun s q => pushEvent (ClearPop s q) (Event.freePop q)) st1).heap id =
          st.heap id) ∨
        ((rest.foldl (fun s q => pushEvent (ClearPop s q) (Event.freePop q)) st1).heap id =
          none)
      rcases hmonor id with h | h
      · rw [h, hst1]
        show (ClearPop st q0).heap id = st.heap id ∨ (ClearPop st q0).heap id = none
        exact hmonoq id
      · exact Or.inr h
    · show (rest.foldl _ st1).emptyOrg = st.emptyOrg
      rw [hempr, hemp1]
    · intro q hq
      have hq1 : q ∉ rest := fun hc => hq (List.mem_cons_of_mem _ hc)
      have hqne : q ≠ q0 := fun hc => hq (hc ▸ List.mem_cons_self _ _)
      show (rest.foldl _ st1).pops.getD q default = _
      rw [hpopr q hq1, hst1]
      show (ClearPop st q0).pops.getD q default = _
      exact hpopq q hqne

-- ======================= C5 =======================

/-- C5: on teardown, BeforeExit fires first, every population is cleared
(BeforeDeath fires for each living organism, which is released from the
heap) and freed, and the shared sentinel organism is freed strictly last —
the FreeSentinel action is the final element of the teardown trace and
occurs exactly once, after every population free.  The destructor runs
this sequence unconditionally, for every state. -/
theorem teardown_spec (st : WorldState) :
    ∃ d, (destructMABE st).trace = st.trace ++ d ∧
      d.head? = some Event.beforeExit ∧
      d.getLast? = some Event.freeSentinel ∧
      d.count Event.freeSentinel = 1 ∧
      (∀ p, p < st.pops.length → Event.freePop p ∈ d) ∧
      (∀ p k, slotAt st p k ≠ st.emptyOrg →
        Event.beforeDeath (some (p, k)) ∈ d ∧
        (destructMABE st).heap (slotAt st p k) = none) := by
  set mods := (List.range st.modules.length).map Event.freeModule with hmods
  set st3 := ({ st with
      trace := (st.trace ++ [Event.beforeExit]) ++ mods,
      modules := [] } : WorldState) with hst3
  have hdest : destructMABE st =
      pushEvent
        ((List.range st.pops.length).foldl
          (fun s p => pushEvent (ClearPop s p) (Event.freePop p)) st3)
        Event.freeSentinel := by
    rw [hst3, hmods]
    unfold destructMABE
    simp only
    rw [foldl_pushEvent_map Event.freeModule
      (List.range (pushEvent st Event.beforeExit).modules.length)
      (pushEvent st Event.beforeExit)]
    rfl
  obtain ⟨d4, htr4, hshape4, hfree4, hrel4, hmono4, hemp4, _⟩ :=
    destructPops_spec (List.range st.pops.length) st3 (List.nodup_range _)
  refine ⟨Event.beforeExit :: (mods ++ (d4 ++ [Event.freeSentinel])), ?_, rfl,
    ?_, ?_, ?_, ?_⟩
  · rw [hdest, pushEvent_trace, htr4]
    have h3tr : st3.trace = (st.trace ++ [Event.beforeExit]) ++ mods := by
      rw [hst3]
    rw [h3tr]
    simp
  · rw [show Event.beforeExit :: (mods ++ (d4 ++ [Event.freeSentinel])) =
      (Event.beforeExit :: (mods ++ d4)) ++ [Event.freeSentinel] by simp]
    exact List.getLast?_concat _
  · rw [List.count_cons, List.count_append, List.count_append]
    have h1 : mods.count Event.freeSentinel = 0 := by
      rw [hmods, List.count_eq_zero]
      intro hc
      obtain ⟨x, _, hx⟩ := List.mem_map.1 hc
      cases hx
    have h2 : d4.count Event.freeSentinel = 0 := by
      rw [List.count_eq_zero]
      intro hc
      rcases hshape4 _ hc with ⟨q, k, he⟩ | ⟨q, he, _⟩ <;> cases he
    rw [h1, h2]
    rfl
  · intro p hp
    have : Event.freePop p ∈ d4 := hfree4 p (List.mem_range.2 hp)
    simp [this]
  · intro p k hocc
    have hocc3 : slotAt st3 p k ≠ st3.emptyOrg := hocc
    obtain ⟨hmem, hnone⟩ := hrel4 p k
      (List.mem_range.2 (by
        by_contra hge
        exact hocc (slotAt_pop_oob st p k (by omega)))) hocc3
    constructor
    · simp [hmem]
    · rw [hdest]
      exact hnone

/-- Witness for C5: on the concrete world the teardown trace ends with the
sentinel free, and the theorem instantiates. -/
theorem teardown_spec_witness :
    (destructMABE wSt0).trace.getLast? = some Event.freeSentinel ∧
    (∃ d, (destructMABE wSt0).trace = wSt0.trace ++ d ∧
      d.head? = some Event.beforeExit ∧
      d.getLast? = some Event.freeSentinel ∧
      d.count Event.freeSentinel = 1 ∧
      (∀ p, p < wSt0.pops.length → Event.freePop p ∈ d) ∧
      (∀ p k, slotAt wSt0 p k ≠ wSt0.emptyOrg →
        Event.beforeDeath (some (p, k)) ∈ d ∧
        (destructMABE wSt0).heap (slotAt wSt0 p k) = none)) :=
  ⟨by decide, teardown_spec wSt0⟩

-- Facts about AddOrgAt.

theorem addOrgAt_some_trace (st : WorldState) (orgId p i : Nat) (ppos : OrgPosition) :
    (AddOrgAt st orgId (some (p, i)) ppos).trace =
      st.trace ++ [Event.beforePlacement (orgVal st orgId) (some (p, i)) ppos,
        Event.onPlacement (some (p, i))] := by
  unfold AddOrgAt
  simp only
  split <;> simp

theorem addOrgAt_errors (st : WorldState) (orgId : Nat) (pos ppos : OrgPosition) :
    (AddOrgAt st orgId pos ppos).errors = st.errors := by
  rcases pos with _ | ⟨p, i⟩
  · rfl
  · unfold AddOrgAt
    simp only
    split <;> simp

theorem addOrgAt_emptyOrg (st : WorldState) (orgId : Nat) (pos ppos : OrgPosition) :
    (AddOrgAt st orgId pos ppos).emptyOrg = st.emptyOrg := by
  rcases pos with _ | ⟨p, i⟩
  · rfl
  · unfold AddOrgAt
    simp only
    split <;> simp

theorem addOrgAt_nextId (st : WorldState) (orgId : Nat) (pos ppos : OrgPosition) :
    (AddOrgAt st orgId pos ppos).nextId = st.nextId := by
  rcases pos with _ | ⟨p, i⟩
  · rfl
  · unfold AddOrgAt
    simp only
    split <;> simp

/-- Membership in a `Collection` after `Insert`. -/
theorem collInsert_mem (c : Collection) (p q : OrgPosition) :
    q ∈ collInsert c p ↔ q ∈ c ∨ q = p := by
  unfold collInsert
  split
  · rename_i hin
    constructor
    · exact Or.inl
    · rintro (h | rfl)
      · exact h
      · exact hin
  · simp

/-- A position accepted by the validity check names an existing population
and an in-bounds index (in particular it is not the null position). -/
theorem isValidPos_shape (pops : List Popn) (pos : OrgPosition)
    (h : isValidPos pops pos = true) : ∃ q j, pos = some (q, j) := by
  rcases pos with _ | ⟨q, j⟩
  · cases h
  · exact ⟨q, j, rfl⟩

/-- One-step unfolding of the clone-variant `Inject` loop. -/
theorem injectLoop_succ (pf : PlaceInjectFn) (popId : Nat) (g : Genome)
    (n i : Nat) (st : WorldState) (coll : Collection) :
    InjectLoop pf popId g (n + 1) i st coll =
      (if isValidPos ({ pushEvent (allocOrg st g).1 (.onInjectReady g popId) with
            pops := (pf (pushEvent (allocOrg st g).1
              (.onInjectReady g popId)).pops g).1 } : WorldState).pops
          (pf (pushEvent (allocOrg st g).1 (.onInjectReady g popId)).pops g).2 then
        InjectLoop pf popId g n (i + 1)
          (AddOrgAt
            ({ pushEvent (allocOrg st g).1 (.onInjectReady g popId) with
              pops := (pf (pushEvent (allocOrg st g).1
                (.onInjectReady g popId)).pops g).1 } : WorldState)
            (allocOrg st g).2
            (pf (pushEvent (allocOrg st g).1 (.onInjectReady g popId)).pops g).2
            OrgPosition.invalid)
          (collInsert coll
            (pf (pushEvent (allocOrg st g).1 (.onInjectReady g popId)).pops g).2)
      else
        InjectLoop pf popId g n (i + 1)
          (addError
            (releaseOrg
              ({ pushEvent (allocOrg st g).1 (.onInjectReady g popId) with
                pops := (pf (pushEvent (allocOrg st g).1
                  (.onInjectReady g popId)).pops g).1 } : WorldState)
              (allocOrg st g).2)
            ("Invalid position; failed to inject organism " ++ toString i ++ "!"))
          coll) := rfl

/-- Loop invariant of the clone-variant `Inject` loop: the trace grows by
one OnInjectReady firing per instance (each carrying the clone of the
given organism and the target population) plus the placement signals of
the placed instances; the returned collection accumulates exactly the
placed positions and never the null position; the error list grows by one
message per failed placement. -/
theorem injectLoop_spec (pf : PlaceInjectFn) (popId : Nat) (g : Genome) :
    ∀ (n i : Nat) (st : WorldState) (coll : Collection),
    ∃ d derr,
      (InjectLoop pf popId g n i st coll).1.trace = st.trace ++ d ∧
      (InjectLoop pf popId g n i st coll).1.errors = st.errors ++ derr ∧
      (∀ p, p ∈ (InjectLoop pf popId g n i st coll).2 ↔
        p ∈ coll ∨ Event.onPlacement p ∈ d) ∧
      (∀ p, Event.onPlacement p ∈ d → p ≠ OrgPosition.invalid) ∧
      d.countP isOnInjectReady = n ∧
      (∀ gv q, Event.onInjectReady gv q ∈ d → gv = g ∧ q = popId) ∧
      derr.length + d.countP isOnPlacement = n := by
  intro n
  induction n with
  | zero =>
    intro i st coll
    exact ⟨[], [], by simp [InjectLoop], by simp [InjectLoop],
      by simp [InjectLoop], by simp, by simp, by simp, by simp⟩
  | succ n ih =>
    intro i st coll
    rw [injectLoop_succ]
    split
    · rename_i hv
      obtain ⟨q, j, hpos⟩ := isValidPos_shape _ _ hv
      set st3 := ({ pushEvent (allocOrg st g).1 (.onInjectReady g popId) with
        pops := (pf (pushEvent (allocOrg st g).1
          (.onInjectReady g popId)).pops g).1 } : WorldState) with hst3
      set pos := (pf (pushEvent (allocOrg st g).1
        (.onInjectReady g popId)).pops g).2 with hposdef
      set st4 := AddOrgAt st3 (allocOrg st g).2 pos OrgPosition.invalid with hst4
      obtain ⟨d1, derr1, htr1, herr1, hmem1, hval1, hcnt1, hinj1, hbal1⟩ :=
        ih (i + 1) st4 (collInsert coll pos)
      have htr4 : st4.trace = st.trace ++
          [Event.onInjectReady g popId,
           Event.beforePlacement (orgVal st3 (allocOrg st g).2) pos OrgPosition.invalid,
           Event.onPlacement pos] := by
        rw [hst4, hpos, addOrgAt_some_trace]
        have : st3.trace = st.trace ++ [Event.onInjectReady g popId] := by
          rw [hst3]; rfl
        rw [← hpos, this]
        simp
      have herr4 : st4.errors = st.errors := by
        rw [hst4, addOrgAt_errors, hst3]
        rfl
      refine ⟨Event.onInjectReady g popId ::
          Event.beforePlacement (orgVal st3 (allocOrg st g).2) pos OrgPosition.invalid ::
          Event.onPlacement pos :: d1, derr1, ?_, ?_, ?_, ?_, ?_, ?_, ?_⟩
      · rw [htr1, htr4]
        simp
      · rw [herr1, herr4]
      · intro p
        rw [hmem1 p, collInsert_mem]
        constructor
        · rintro ((h | rfl) | h)
          · exact Or.inl h
          · exact Or.inr (by simp)
          · exact Or.inr (by simp [h])
        · rintro (h | h)
          · exact Or.inl (Or.inl h)
          · rcases List.mem_cons.1 h with he | h
            · cases he

            · rcases List.mem_cons.1 h with he | h
              · cases he
              · rcases List.mem_cons.1 h with he | h
                · cases he
                  exact Or.inl (Or.inr rfl)
                · exact Or.inr h
      · intro p hp
        rcases List.mem_cons.1 hp with he | hp
        · cases he
        · rcases List.mem_cons.1 hp with he | hp
          · cases he
          · rcases List.mem_cons.1 hp with he | hp
            · cases he
              rw [hpos]
              simp [OrgPosition.invalid]
            · exact hval1 p hp
      · simp [List.countP_cons, isOnInjectReady, hcnt1]
      · intro gv q0 hgv
        rcases List.mem_cons.1 hgv with he | hgv
        · cases he; exact ⟨rfl, rfl⟩
        · rcases List.mem_cons.1 hgv with he | hgv
          · cases he
          · rcases List.mem_cons.1 hgv with he | hgv
            · cases he
            · exact hinj1 gv q0 hgv
      · simp [List.countP_cons, isOnPlacement]
        omega
    · rename_i hv
      set st3 := ({ pushEvent (allocOrg st g).1 (.onInjectReady g popId) with
        pops := (pf (pushEvent (allocOrg st g).1
          (.onInjectReady g popId)).pops g).1 } : WorldState) with hst3
      set st4 := addError (releaseOrg st3 (allocOrg st g).2)
        ("Invalid position; failed to inject organism " ++ toString i ++ "!") with hst4
      obtain ⟨d1, derr1, htr1, herr1, hmem1, hval1, hcnt1, hinj1, hbal1⟩ :=
        ih (i + 1) st4 coll
      have htr4 : st4.trace = st.trace ++ [Event.onInjectReady g popId] := rfl
      have herr4 : st4.errors = st.errors ++
          ["Invalid position; failed to inject organism " ++ toString i ++ "!"] := rfl
      refine ⟨Event.onInjectReady g popId :: d1,
        ("Invalid position; failed to inject organism " ++ toString i ++ "!") :: derr1,
        ?_, ?_, ?_, ?_, ?_, ?_, ?_⟩
      · rw [htr1, htr4]
        simp
      · rw [herr1, herr4]
        simp
      · intro p
        rw [hmem1 p]
        constructor
        · rintro (h | h)
          · exact Or.inl h
          · exact Or.inr (List.mem_cons_of_mem _ h)
        · rintro (h | h)
          · exact Or.inl h
          · rcases List.mem_cons.1 h with he | h
            · cases he
            · exact Or.inr h
      · intro p hp
        rcases List.mem_cons.1 hp with he | hp
        · cases he
        · exact hval1 p hp
      · simp [List.countP_cons, isOnInjectReady, hcnt1]
      · intro gv q0 hgv
        rcases List.mem_cons.1 hgv with he | hgv
        · cases he; exact ⟨rfl, rfl⟩
        · exact hinj1 gv q0 hgv
      · simp [List.countP_cons, isOnPlacement]
        omega

/-- `InjectInstance` summary: OnInjectReady fires once for the instance;
when the placement is valid the instance is installed (OnPlacement fires
exactly at the returned position, no error); when invalid the instance is
released, no OnPlacement fires, and exactly one error is recorded. -/
theorem injectInstance_spec (pf : PlaceInjectFn) (popId : Nat)
    (st : WorldState) (orgId : Nat) :
    ∃ d derr,
      (InjectInstance pf popId st orgId).1.trace = st.trace ++ d ∧
      (InjectInstance pf popId st orgId).1.errors = st.errors ++ derr ∧
      d.countP isOnInjectReady = 1 ∧
      ((Event.onPlacement (InjectInstance pf popId st orgId).2 ∈ d ∧
        (∀ p, Event.onPlacement p ∈ d →
          p = (InjectInstance pf popId st orgId).2) ∧
        derr = [] ∧ d.countP isOnPlacement = 1) ∨
       ((∀ p, Event.onPlacement p ∉ d) ∧ derr.length = 1 ∧
        d.countP isOnPlacement = 0)) := by
  unfold InjectInstance
  simp only
  split
  · rename_i hv
    obtain ⟨q, j, hpos⟩ := isValidPos_shape _ _ hv
    refine ⟨[Event.onInjectReady (orgVal st orgId) popId,
      Event.beforePlacement
        (orgVal ({ pushEvent st (.onInjectReady (orgVal st orgId) popId) with
          pops := (pf (pushEvent st
            (.onInjectReady (orgVal st orgId) popId)).pops (orgVal st orgId)).1 } : WorldState)
          orgId)
        (pf (pushEvent st (.onInjectReady (orgVal st orgId) popId)).pops (orgVal st orgId)).2
        OrgPosition.invalid,
      Event.onPlacement
        (pf (pushEvent st (.onInjectReady (orgVal st orgId) popId)).pops (orgVal st orgId)).2],
      [], ?_, ?_, ?_, ?_⟩
    · rw [hpos, addOrgAt_some_trace, ← hpos]
      simp
    · rw [addOrgAt_errors]
      simp
    · simp [List.countP_cons, isOnInjectReady]
    · refine Or.inl ⟨by simp, ?_, rfl, by simp [List.countP_cons, isOnPlacement]⟩
      intro p hp
      rcases List.mem_cons.1 hp with he | hp
      · cases he
      · rcases List.mem_cons.1 hp with he | hp
        · cases he
        · rcases List.mem_cons.1 hp with he | hp
          · cases he; rfl
          · cases hp
  · refine ⟨[Event.onInjectReady (orgVal st orgId) popId],
      ["Invalid position; failed to inject organism!"], by simp, by simp, ?_, ?_⟩
    · simp [List.countP_cons, isOnInjectReady]
    · refine Or.inr ⟨?_, rfl, by simp [List.countP_cons, isOnPlacement]⟩
      intro p hp
      rcases List.mem_cons.1 hp with he | hp
      · cases he
      · cases hp

/-- One-step unfolding of the named-type `Inject` loop. -/
theorem injectTypedLoop_succ (pf : PlaceInjectFn) (mk : Nat → Genome)
    (popId : Nat) (n i : Nat) (st : WorldState) (coll : Collection) :
    InjectTypedLoop pf mk popId (n + 1) i st coll =
      InjectTypedLoop pf mk popId n (i + 1)
        (InjectInstance pf popId (allocOrg st (mk i)).1 (allocOrg st (mk i)).2).1
        (collInsert coll
          (InjectInstance pf popId (allocOrg st (mk i)).1 (allocOrg st (mk i)).2).2) := rfl

/-- Loop invariant of the named-type `Inject` loop: every placed position
is recorded in the returned collection; the collection grows monotonically;
when no placement failed the collection is exactly the placed positions;
one OnInjectReady fires per instance and one error is recorded per failed
placement. -/
theorem injectTypedLoop_spec (pf : PlaceInjectFn) (mk : Nat → Genome)
    (popId : Nat) :
    ∀ (n i : Nat) (st : WorldState) (coll : Collection),
    ∃ d derr,
      (InjectTypedLoop pf mk popId n i st coll).1.trace = st.trace ++ d ∧
      (InjectTypedLoop pf mk popId n i st coll).1.errors = st.errors ++ derr ∧
      (∀ p, Event.onPlacement p ∈ d →
        p ∈ (InjectTypedLoop pf mk popId n i st coll).2) ∧
      (∀ p, p ∈ coll → p ∈ (InjectTypedLoop pf mk popId n i st coll).2) ∧
      (derr = [] → ∀ p, p ∈ (InjectTypedLoop pf mk popId n i st coll).2 ↔
        p ∈ coll ∨ Event.onPlacement p ∈ d) ∧
      d.countP isOnInjectReady = n ∧
      derr.length + d.countP isOnPlacement = n := by
  intro n
  induction n with
  | zero =>
    intro i st coll
    exact ⟨[], [], by simp [InjectTypedLoop], by simp [InjectTypedLoop],
      by simp, by simp [InjectTypedLoop], by simp [InjectTypedLoop], by simp, by simp⟩
  | succ n ih =>
    intro i st coll
    rw [injectTypedLoop_succ]
    set stA := (allocOrg st (mk i)).1 with hstA
    set r1 := InjectInstance pf popId stA (allocOrg st (mk i)).2 with hr1
    obtain ⟨dI, derrI, htrI, herrI, hcntI, hcaseI⟩ :=
      injectInstance_spec pf popId stA (allocOrg st (mk i)).2
    obtain ⟨d1, derr1, htr1, herr1, hplaced1, hmono1, hexact1, hcnt1, hbal1⟩ :=
      ih (i + 1) r1.1 (collInsert coll r1.2)
    have htrA : stA.trace = st.trace := rfl
    have herrA : stA.errors = st.errors := rfl
    refine ⟨dI ++ d1, derrI ++ derr1, ?_, ?_, ?_, ?_, ?_, ?_, ?_⟩
    · rw [htr1, hr1, htrI, htrA]
      simp
    · rw [herr1, hr1, herrI, herrA]
      simp
    · intro p hp
      rcases List.mem_append.1 hp with hp | hp
      · rcases hcaseI with ⟨_, huniq, _, _⟩ | ⟨hnone, _, _⟩
        · have hpe : p = r1.2 := by
            have h2 := huniq p hp
            rw [← hr1] at h2
            exact h2
          exact hmono1 p (by rw [hpe, collInsert_mem]; exact Or.inr rfl)
        · exact absurd hp (hnone p)
      · exact hplaced1 p hp
    · intro p hp
      exact hmono1 p ((collInsert_mem coll r1.2 p).2 (Or.inl hp))
    · intro hde p
      have hsplit : derrI = [] ∧ derr1 = [] := List.append_eq_nil.1 hde
      rcases hcaseI with ⟨hmemI, huniqI, _, hcntPI⟩ | ⟨_, hlen, _⟩
      · rw [hexact1 hsplit.2 p, collInsert_mem]
        constructor
        · rintro ((h | rfl) | h)
          · exact Or.inl h
          · refine Or.inr (List.mem_append.2 (Or.inl ?_))
            rw [← hr1] at hmemI
            exact hmemI
          · exact Or.inr (List.mem_append.2 (Or.inr h))
        · rintro (h | h)
          · exact Or.inl (Or.inl h)
          · rcases List.mem_append.1 h with h | h
            · refine Or.inl (Or.inr ?_)
              have h2 := huniqI p h
              rw [← hr1] at h2
              exact h2
            · exact Or.inr h
      · rw [hsplit.1] at hlen
        cases hlen
    · rw [List.countP_append, hcntI, hcnt1]
      omega
    · rw [List.countP_append, List.length_append]
      rcases hcaseI with ⟨_, _, hdeI, hcntPI⟩ | ⟨_, hlenI, hcntPI⟩
      · rw [hdeI, hcntPI]
        simp only [List.length_nil]
        omega
      · rw [hcntPI, hlenI]
        omega

-- ======================= C1 =======================

/-- C1 (amended): for the clone-an-organism variant of `Inject`, every
instance is cloned from the given organism and OnInjectReady fires on the
clone (`count` firings, each carrying the clone and the population); the
returned Collection is exactly the set of positions where instances were
actually placed (an OnPlacement firing) and never contains the null
position; a failed placement releases the instance and records exactly one
error (placements + errors = count).  For the named-type variant, every
placed position is in the returned Collection, OnInjectReady fires once per
instance, placements + errors = count, and the Collection is exactly the
placed positions only when no placement failed — a failed injection also
records its invalid returned position (see the counterexample). -/
theorem inject_placement_spec (pf : PlaceInjectFn) (mk : Nat → Genome)
    (popId : Nat) (g : Genome) (count : Nat) (st : WorldState) :
    (∃ d derr,
      (Inject pf popId st g count).1.trace = st.trace ++ d ∧
      (Inject pf popId st g count).1.errors = st.errors ++ derr ∧
      (∀ p, p ∈ (Inject pf popId st g count).2 ↔ Event.onPlacement p ∈ d) ∧
      (∀ p, p ∈ (Inject pf popId st g count).2 → p ≠ OrgPosition.invalid) ∧
      d.countP isOnInjectReady = count ∧
      (∀ gv q, Event.onInjectReady gv q ∈ d → gv = g ∧ q = popId) ∧
      derr.length + d.countP isOnPlacement = count) ∧
    (∃ d derr,
      (InjectTyped pf mk popId st count).1.trace = st.trace ++ d ∧
      (InjectTyped pf mk popId st count).1.errors = st.errors ++ derr ∧
      (∀ p, Event.onPlacement p ∈ d →
        p ∈ (InjectTyped pf mk popId st count).2) ∧
      (derr = [] → ∀ p, p ∈ (InjectTyped pf mk popId st count).2 ↔
        Event.onPlacement p ∈ d) ∧
      d.countP isOnInjectReady = count ∧
      derr.length + d.countP isOnPlacement = count) := by
  unfold Inject InjectTyped
  constructor
  · obtain ⟨d, derr, h1, h2, h3, h4, h5, h6, h7⟩ :=
      injectLoop_spec pf popId g count 0 st []
    refine ⟨d, derr, h1, h2, ?_, ?_, h5, h6, h7⟩
    · intro p
      rw [h3 p]
      simp
    · intro p hp
      rcases (h3 p).1 hp with h | h
      · cases h
      · exact h4 p h
  · obtain ⟨d, derr, h1, h2, h3, h4, h5, h6, h7⟩ :=
      injectTypedLoop_spec pf mk popId count 0 st []
    refine ⟨d, derr, h1, h2, h3, ?_, h6, h7⟩
    intro hde p
    rw [h5 hde p]
    simp

/-- Counterexample to C1 as stated: with a placement strategy that rejects
the instance, the named-type `Inject` variant still inserts the returned
invalid position into the returned Collection — although no OnPlacement
ever fired (nothing was placed) and the failure was reported — so the
returned set is not "exactly the positions at which instances were
actually placed" and an invalid position IS in the returned set. -/
theorem injectTyped_records_invalid_cex :
    OrgPosition.invalid ∈ (InjectTyped pfInvalid (fun _ => 7) 0 wSt0 1).2 ∧
    (∀ e ∈ (InjectTyped pfInvalid (fun _ => 7) 0 wSt0 1).1.trace,
      isOnPlacement e = false) ∧
    (InjectTyped pfInvalid (fun _ => 7) 0 wSt0 1).1.errors =
      ["Invalid position; failed to inject organism!"] := by decide

/-- Witness for C1: a concrete successful injection, recorded exactly. -/
theorem inject_placement_spec_witness :
    (some (0, 0) : OrgPosition) ∈ (Inject pfSlot0 0 wSt0 5 1).2 ∧
    (∃ d derr,
      (Inject pfSlot0 0 wSt0 5 1).1.trace = wSt0.trace ++ d ∧
      (Inject pfSlot0 0 wSt0 5 1).1.errors = wSt0.errors ++ derr ∧
      (∀ p, p ∈ (Inject pfSlot0 0 wSt0 5 1).2 ↔ Event.onPlacement p ∈ d) ∧
      (∀ p, p ∈ (Inject pfSlot0 0 wSt0 5 1).2 → p ≠ OrgPosition.invalid) ∧
      d.countP isOnInjectReady = 1 ∧
      (∀ gv q, Event.onInjectReady gv q ∈ d → gv = 5 ∧ q = 0) ∧
      derr.length + d.countP isOnPlacement = 1) :=
  ⟨by decide, (inject_placement_spec pfSlot0 (fun _ => 7) 0 5 1 wSt0).1⟩

-- ======================= C2 =======================

/-- One-step unfolding of the `DoBirth` loop. -/
theorem doBirthLoop_succ (mutateFn : Genome → Genome) (pb : PlaceBirthFn)
    (popId : Nat) (g : Genome) (ppos : OrgPosition) (doMut : Bool)
    (n : Nat) (st : WorldState) (coll : Collection) :
    DoBirthLoop mutateFn pb popId g ppos doMut (n + 1) st coll =
      (if isValidPos
          ({ pushEvent (allocOrg st (if doMut then mutateFn g else g)).1
              (.onOffspringReady (if doMut then mutateFn g else g) ppos popId) with
            pops := (pb (pushEvent (allocOrg st (if doMut then mutateFn g else g)).1
              (.onOffspringReady (if doMut then mutateFn g else g) ppos popId)).pops
              (if doMut then mutateFn g else g) ppos).1 } : WorldState).pops
          (pb (pushEvent (allocOrg st (if doMut then mutateFn g else g)).1
            (.onOffspringReady (if doMut then mutateFn g else g) ppos popId)).pops
            (if doMut then mutateFn g else g) ppos).2 then
        DoBirthLoop mutateFn pb popId g ppos doMut n
          (AddOrgAt
            ({ pushEvent (allocOrg st (if doMut then mutateFn g else g)).1
                (.onOffspringReady (if doMut then mutateFn g else g) ppos popId) with
              pops := (pb (pushEvent (allocOrg st (if doMut then mutateFn g else g)).1
                (.onOffspringReady (if doMut then mutateFn g else g) ppos popId)).pops
                (if doMut then mutateFn g else g) ppos).1 } : WorldState)
            (allocOrg st (if doMut then mutateFn g else g)).2
            (pb (pushEvent (allocOrg st (if doMut then mutateFn g else g)).1
              (.onOffspringReady (if doMut then mutateFn g else g) ppos popId)).pops
              (if doMut then mutateFn g else g) ppos).2
            ppos)
          (collInsert coll
            (pb (pushEvent (allocOrg st (if doMut then mutateFn g else g)).1
              (.onOffspringReady (if doMut then mutateFn g else g) ppos popId)).pops
              (if doMut then mutateFn g else g) ppos).2)
      else
        DoBirthLoop mutateFn pb popId g ppos doMut n
          (releaseOrg
            ({ pushEvent (allocOrg st (if doMut then mutateFn g else g)).1
                (.onOffspringReady (if doMut then mutateFn g else g) ppos popId) with
              pops := (pb (pushEvent (allocOrg st (if doMut then mutateFn g else g)).1
                (.onOffspringReady (if doMut then mutateFn g else g) ppos popId)).pops
                (if doMut then mutateFn g else g) ppos).1 } : WorldState)
            (allocOrg st (if doMut then mutateFn g else g)).2)
          coll) := rfl

/-- Loop invariant of the `DoBirth` loop: the trace grows by one
OnOffspringReady firing per offspring (each carrying the
mutated-or-cloned genome, the parent position and the target population)
plus the placement signals of the placed offspring; the returned
collection is exactly the placed positions and never the null position;
no BeforeRepro fires inside the loop, and — unlike injection — no error
is ever recorded for a failed placement. -/
theorem doBirthLoop_spec (mutateFn : Genome → Genome) (pb : PlaceBirthFn)
    (popId : Nat) (g : Genome) (ppos : OrgPosition) (doMut : Bool) :
    ∀ (n : Nat) (st : WorldState) (coll : Collection),
    ∃ d,
      (DoBirthLoop mutateFn pb popId g ppos doMut n st coll).1.trace =
        st.trace ++ d ∧
      (DoBirthLoop mutateFn pb popId g ppos doMut n st coll).1.errors =
        st.errors ∧
      (∀ p, p ∈ (DoBirthLoop mutateFn pb popId g ppos doMut n st coll).2 ↔
        p ∈ coll ∨ Event.onPlacement p ∈ d) ∧
      (∀ p, Event.onPlacement p ∈ d → p ≠ OrgPosition.invalid) ∧
      d.countP isOnOffspringReady = n ∧
      (∀ gv pp tp, Event.onOffspringReady gv pp tp ∈ d →
        gv = (if doMut then mutateFn g else g) ∧ pp = ppos ∧ tp = popId) ∧
      d.countP isBeforeRepro = 0 := by
  intro n
  induction n with
  | zero =>
    intro st coll
    exact ⟨[], by simp [DoBirthLoop], by simp [DoBirthLoop],
      by simp [DoBirthLoop], by simp, by simp, by simp, by simp⟩
  | succ n ih =>
    intro st coll
    rw [doBirthLoop_succ]
    set child := (if doMut then mutateFn g else g) with hchild
    split
    · rename_i hv
      obtain ⟨q, j, hpos⟩ := isValidPos_shape _ _ hv
      set st3 := ({ pushEvent (allocOrg st child).1
          (.onOffspringReady child ppos popId) with
        pops := (pb (pushEvent (allocOrg st child).1
          (.onOffspringReady child ppos popId)).pops child ppos).1 } : WorldState)
        with hst3
      set pos := (pb (pushEvent (allocOrg st child).1
        (.onOffspringReady child ppos popId)).pops child ppos).2 with hposdef
      set st4 := AddOrgAt st3 (allocOrg st child).2 pos ppos with hst4
      obtain ⟨d1, htr1, herr1, hmem1, hval1, hcnt1, hoff1, hbr1⟩ :=
        ih st4 (collInsert coll pos)
      have htr4 : st4.trace = st.trace ++
          [Event.onOffspringReady child ppos popId,
           Event.beforePlacement (orgVal st3 (allocOrg st child).2) pos ppos,
           Event.onPlacement pos] := by
        rw [hst4, hpos, addOrgAt_some_trace]
        have h3 : st3.trace = st.trace ++
            [Event.onOffspringReady child ppos popId] := rfl
        rw [← hpos, h3]
        simp
      have herr4 : st4.errors = st.errors := by
        rw [hst4, addOrgAt_errors]
        rfl
      refine ⟨Event.onOffspringReady child ppos popId ::
        Event.beforePlacement (orgVal st3 (allocOrg st child).2) pos ppos ::
        Event.onPlacement pos :: d1, ?_, ?_, ?_, ?_, ?_, ?_, ?_⟩
      · rw [htr1, htr4]
        simp
      · rw [herr1, herr4]
      · intro p
        rw [hmem1 p, collInsert_mem]
        constructor
        · rintro ((h | rfl) | h)
          · exact Or.inl h
          · exact Or.inr (by simp)
          · exact Or.inr (by simp [h])
        · rintro (h | h)
          · exact Or.inl (Or.inl h)
          · rcases List.mem_cons.1 h with he | h
            · cases he
            · rcases List.mem_cons.1 h with he | h
              · cases he
              · rcases List.mem_cons.1 h with he | h
                · cases he
                  exact Or.inl (Or.inr rfl)
                · exact Or.inr h
      · intro p hp
        rcases List.mem_cons.1 hp with he | hp
        · cases he
        · rcases List.mem_cons.1 hp with he | hp
          · cases he
          · rcases List.mem_cons.1 hp with he | hp
            · cases he
              rw [hpos]
              simp [OrgPosition.invalid]
            · exact hval1 p hp
      · simp [List.countP_cons, isOnOffspringReady, hcnt1]
      · intro gv pp tp hgv
        rcases List.mem_cons.1 hgv with he | hgv
        · cases he; exact ⟨rfl, rfl, rfl⟩
        · rcases List.mem_cons.1 hgv with he | hgv
          · cases he
          · rcases List.mem_cons.1 hgv with he | hgv
            · cases he
            · exact hoff1 gv pp tp hgv
      · simp [List.countP_cons, isBeforeRepro, hbr1]
    · rename_i hv
      set st3 := ({ pushEvent (allocOrg st child).1
          (.onOffspringReady child ppos popId) with
        pops := (pb (pushEvent (allocOrg st child).1
          (.onOffspringReady child ppos popId)).pops child ppos).1 } : WorldState)
        with hst3
      set st4 := releaseOrg st3 (allocOrg st child).2 with hst4
      obtain ⟨d1, htr1, herr1, hmem1, hval1, hcnt1, hoff1, hbr1⟩ := ih st4 coll
      have htr4 : st4.trace = st.trace ++
          [Event.onOffspringReady child ppos popId] := rfl
      have herr4 : st4.errors = st.errors := rfl
      refine ⟨Event.onOffspringReady child ppos popId :: d1, ?_, ?_, ?_, ?_,
        ?_, ?_, ?_⟩
      · rw [htr1, htr4]
        simp
      · rw [herr1, herr4]
      · intro p
        rw [hmem1 p]
        constructor
        · rintro (h | h)
          · exact Or.inl h
          · exact Or.inr (List.mem_cons_of_mem _ h)
        · rintro (h | h)
          · exact Or.inl h
          · rcases List.mem_cons.1 h with he | h
            · cases he
            · exact Or.inr h
      · intro p hp
        rcases List.mem_cons.1 hp with he | hp
        · cases he
        · exact hval1 p hp
      · simp [List.countP_cons, isOnOffspringReady, hcnt1]
      · intro gv pp tp hgv
        rcases List.mem_cons.1 hgv with he | hgv
        · cases he; exact ⟨rfl, rfl, rfl⟩
        · exact hoff1 gv pp tp hgv
      · simp [List.countP_cons, isBeforeRepro, hbr1]

/-- C2 (amended): `DoBirth` fires BeforeRepro exactly once regardless of
`count`; each of the `count` offspring is constructed by mutated
inheritance when `do_mutation` is true and by exact cloning otherwise,
OnOffspringReady fires for it (carrying the offspring, the parent position
and the target population), and a destination is resolved via
`PlaceBirth`; a valid destination leads to installation via `AddOrgAt`,
and the returned Collection is exactly the set of placed positions; an
invalid destination leads to the offspring being released WITHOUT any
error being reported (the error list ends unchanged, in contradiction
with the claim's error-reporting conjunct). -/
theorem doBirth_spec (mutateFn : Genome → Genome) (pb : PlaceBirthFn)
    (popId : Nat) (st : WorldState) (g : Genome) (ppos : OrgPosition)
    (count : Nat) (doMut : Bool) :
    ∃ d,
      (DoBirth mutateFn pb popId st g ppos count doMut).1.trace =
        st.trace ++ (Event.beforeRepro ppos :: d) ∧
      (Event.beforeRepro ppos :: d).countP isBeforeRepro = 1 ∧
      (DoBirth mutateFn pb popId st g ppos count doMut).1.errors = st.errors ∧
      (∀ p, p ∈ (DoBirth mutateFn pb popId st g ppos count doMut).2 ↔
        Event.onPlacement p ∈ d) ∧
      (∀ p, p ∈ (DoBirth mutateFn pb popId st g ppos count doMut).2 →
        p ≠ OrgPosition.invalid) ∧
      d.countP isOnOffspringReady = count ∧
      (∀ gv pp tp, Event.onOffspringReady gv pp tp ∈ d →
        gv = (if doMut then mutateFn g else g) ∧ pp = ppos ∧ tp = popId) := by
  obtain ⟨d, htr, herr, hmem, hval, hcnt, hoff, hbr⟩ :=
    doBirthLoop_spec mutateFn pb popId g ppos doMut count
      (pushEvent st (.beforeRepro ppos)) []
  refine ⟨d, ?_, ?_, ?_, ?_, ?_, hcnt, hoff⟩
  · show (DoBirthLoop mutateFn pb popId g ppos doMut count
      (pushEvent st (.beforeRepro ppos)) []).1.trace = _
    rw [htr]
    simp
  · simp [List.countP_cons, isBeforeRepro, hbr]
  · show (DoBirthLoop mutateFn pb popId g ppos doMut count
      (pushEvent st (.beforeRepro ppos)) []).1.errors = _
    rw [herr]
    rfl
  · intro p
    show p ∈ (DoBirthLoop mutateFn pb popId g ppos doMut count
      (pushEvent st (.beforeRepro ppos)) []).2 ↔ _
    rw [hmem p]
    simp
  · intro p hp
    rcases (hmem p).1 hp with h | h
    · cases h
    · exact hval p h

/-- Counterexample to C2 as stated: when `PlaceBirth` rejects the
offspring, the offspring is constructed (one OnOffspringReady firing) and
its heap entry is released — but NO error is recorded, refuting the
claim's "the offspring instance is released AND an error is reported". -/
theorem doBirth_no_error_cex :
    (DoBirth (fun x => x + 1) pbInvalid 0 wSt0 42 (some (0, 1)) 1 true).1.errors = [] ∧
    (DoBirth (fun x => x + 1) pbInvalid 0 wSt0 42 (some (0, 1)) 1 true).2 = [] ∧
    (DoBirth (fun x => x + 1) pbInvalid 0 wSt0 42
      (some (0, 1)) 1 true).1.trace.countP isOnOffspringReady = 1 ∧
    (DoBirth (fun x => x + 1) pbInvalid 0 wSt0 42
      (some (0, 1)) 1 true).1.heap 2 = none := by decide

/-- Witness for C2: a concrete successful birth, with the placed position
recorded. -/
theorem doBirth_spec_witness :
    (some (0, 0) : OrgPosition) ∈
      (DoBirth (fun x => x + 1) pbSlot0 0 wSt0 42 (some (0, 1)) 1 true).2 ∧
    (∃ d,
      (DoBirth (fun x => x + 1) pbSlot0 0 wSt0 42 (some (0, 1)) 1 true).1.trace =
        wSt0.trace ++ (Event.beforeRepro (some (0, 1)) :: d) ∧
      (Event.beforeRepro (some (0, 1)) :: d).countP isBeforeRepro = 1 ∧
      (DoBirth (fun x => x + 1) pbSlot0 0 wSt0 42
        (some (0, 1)) 1 true).1.errors = wSt0.errors ∧
      (∀ p, p ∈ (DoBirth (fun x => x + 1) pbSlot0 0 wSt0 42
        (some (0, 1)) 1 true).2 ↔ Event.onPlacement p ∈ d) ∧
      (∀ p, p ∈ (DoBirth (fun x => x + 1) pbSlot0 0 wSt0 42
        (some (0, 1)) 1 true).2 → p ≠ OrgPosition.invalid) ∧
      d.countP isOnOffspringReady = 1 ∧
      (∀ gv pp tp, Event.onOffspringReady gv pp tp ∈ d →
        gv = (if true then (fun x => x + 1) 42 else 42) ∧
        pp = (some (0, 1) : OrgPosition) ∧ tp = 0)) :=
  ⟨by decide, doBirth_spec (fun x => x + 1) pbSlot0 0 wSt0 42 (some (0, 1)) 1 true⟩

-- ======================= C10 =======================

/-- Cons-shift of the brace scanner (fuel-generalized). -/
theorem parenMatchGo_cons_aux (a : Char) (l : List Char) :
    ∀ n j d, l.length ≤ j + n →
      parenMatchGo (a :: l) (j + 1) d =
        Option.map (fun x => x + 1) (parenMatchGo l j d) := by
  intro n
  induction n with
  | zero =>
    intro j d hn
    conv_lhs => rw [parenMatchGo]
    conv_rhs => rw [parenMatchGo]
    rw [dif_neg (by simp; omega), dif_neg (by omega)]
    rfl
  | succ n ih =>
    intro j d hn
    by_cases hj : j < l.length
    · conv_lhs => rw [parenMatchGo]
      conv_rhs => rw [parenMatchGo]
      rw [dif_pos (show j + 1 < (a :: l).length by simp; omega), dif_pos hj]
      simp only [List.getD_cons_succ]
      by_cases h1 : l.getD j ' ' = '{'
      · rw [if_pos h1, if_pos h1]
        exact ih (j + 1) (d + 1) (by omega)
      · rw [if_neg h1, if_neg h1]
        by_cases h2 : l.getD j ' ' = '}'
        · rw [if_pos h2, if_pos h2]
          by_cases h3 : d = 1
          · rw [if_pos h3, if_pos h3]
            rfl
          · rw [if_neg h3, if_neg h3]
            exact ih (j + 1) (d - 1) (by omega)
        · rw [if_neg h2, if_neg h2]
          exact ih (j + 1) d (by omega)
    · conv_lhs => rw [parenMatchGo]
      conv_rhs => rw [parenMatchGo]
      rw [dif_neg (by simp; omega), dif_neg (by omega)]
      rfl

/-- Cons-shift of the brace scanner. -/
theorem parenMatchGo_cons (a : Char) (l : List Char) (j d : Nat) :
    parenMatchGo (a :: l) (j + 1) d =
      Option.map (fun x => x + 1) (parenMatchGo l j d) :=
  parenMatchGo_cons_aux a l l.length j d (Nat.le_add_left _ _)

/-- Cons-shift of `findParenMatch`. -/
theorem findParenMatch_cons (a : Char) (l : List Char) (start : Nat) :
    findParenMatch (a :: l) (start + 1) = findParenMatch l start + 1 := by
  unfold findParenMatch
  rw [show start + 1 + 1 = (start + 1) + 1 from rfl, parenMatchGo_cons]
  cases parenMatchGo l (start + 1) 1 <;> simp

/-- When no close brace occurs at or after the scan start, the brace
scanner fails. -/
theorem parenMatchGo_none (s : List Char) :
    ∀ n j d, s.length ≤ j + n → (∀ k, j ≤ k → s.getD k ' ' ≠ '}') →
      parenMatchGo s j d = none := by
  intro n
  induction n with
  | zero =>
    intro j d hn hno
    rw [parenMatchGo, dif_neg (by omega)]
  | succ n ih =>
    intro j d hn hno
    rw [parenMatchGo]
    split
    · have hnc : s.getD j ' ' ≠ '}' := hno j (le_refl j)
      by_cases hob : s.getD j ' ' = '{'
      · rw [if_pos hob]
        exact ih (j + 1) (d + 1) (by omega) (fun k hk => hno k (by omega))
      · rw [if_neg hob, if_neg hnc]
        exact ih (j + 1) d (by omega) (fun k hk => hno k (by omega))
    · rfl

/-- The index-shift law of the `Preprocess` scanner: scanning a string
with one extra leading character from one position further right
processes exactly the tail (fuel-generalized). -/
theorem preprocessGo_cons_aux (exec : List Char → List Char) (a : Char) :
    ∀ n (l : List Char) (i : Nat), l.length ≤ i + n →
      preprocessGo exec (a :: l) (i + 1) = a :: preprocessGo exec l i := by
  intro n
  induction n with
  | zero =>
    intro l i hn
    conv_lhs => rw [preprocessGo]
    conv_rhs => rw [preprocessGo]
    rw [dif_neg (by simp; omega), dif_neg (by omega)]
  | succ n ih =>
    intro l i hn
    by_cases hi : i < l.length
    · conv_lhs => rw [preprocessGo]
      conv_rhs => rw [preprocessGo]
      rw [dif_pos (show i + 1 < (a :: l).length by simp; omega), dif_pos hi]
      simp only [List.getD_cons_succ, List.length_cons]
      by_cases c1 : l.getD i ' ' = '$'
      · conv_lhs => rw [if_neg (show ¬(l.getD i ' ' ≠ '$') by simpa using c1)]
        conv_rhs => rw [if_neg (show ¬(l.getD i ' ' ≠ '$') by simpa using c1)]
        by_cases c2 : l.length ≤ i + 2
        · conv_lhs => rw [if_pos (show l.length + 1 ≤ i + 1 + 2 by omega)]
          conv_rhs => rw [if_pos c2]
        · conv_lhs => rw [if_neg (show ¬(l.length + 1 ≤ i + 1 + 2) by omega)]
          conv_rhs => rw [if_neg c2]
          by_cases c3 : l.getD (i + 1) ' ' = '$'
          · conv_lhs => rw [if_pos c3]
            conv_rhs => rw [if_pos c3]
            rw [List.eraseIdx_cons_succ]
            exact ih (l.eraseIdx i) (i + 1)
              (by rw [List.length_eraseIdx, if_pos hi]; omega)
          · conv_lhs => rw [if_neg c3]
            conv_rhs => rw [if_neg c3]
            by_cases c4 : l.getD (i + 1) ' ' = '{'
            · conv_lhs => rw [if_neg (show ¬(l.getD (i + 1) ' ' ≠ '{') by
                simpa using c4)]
              conv_rhs => rw [if_neg (show ¬(l.getD (i + 1) ' ' ≠ '{') by
                simpa using c4)]
              rw [findParenMatch_cons]
              by_cases c5 : findParenMatch l (i + 1) = i + 1
              · conv_lhs => rw [dif_pos
                  (show findParenMatch l (i + 1) + 1 = i + 1 + 1 by omega)]
                conv_rhs => rw [dif_pos c5]
              · conv_lhs => rw [dif_neg
                  (show ¬(findParenMatch l (i + 1) + 1 = i + 1 + 1) by omega)]
                conv_rhs => rw [dif_neg c5]
                have hF := findParenMatch_spec l (i + 1) c5
                rw [show i + 1 + 2 = (i + 2) + 1 from rfl,
                  List.drop_succ_cons,
                  show findParenMatch l (i + 1) + 1 - ((i + 2) + 1) =
                    findParenMatch l (i + 1) - (i + 2) from by omega,
                  List.drop_succ_cons,
                  List.take_succ_cons,
                  show i + 1 +
                    (exec ((l.drop (i + 2)).take
                      (findParenMatch l (i + 1) - (i + 2)))).length + 1 =
                    (i + (exec ((l.drop (i + 2)).take
                      (findParenMatch l (i + 1) - (i + 2)))).length + 1) + 1
                    from by omega,
                  List.cons_append, List.cons_append]
                exact ih _ _ (by
                  simp only [List.length_append, List.length_take,
                    List.length_drop]
                  omega)
            · conv_lhs => rw [if_pos (show l.getD (i + 1) ' ' ≠ '{' from c4)]
              conv_rhs => rw [if_pos (show l.getD (i + 1) ' ' ≠ '{' from c4)]
              exact ih l (i + 1) (by omega)
      · conv_lhs => rw [if_pos (show l.getD i ' ' ≠ '$' from c1)]
        conv_rhs => rw [if_pos (show l.getD i ' ' ≠ '$' from c1)]
        exact ih l (i + 1) (by omega)
    · conv_lhs => rw [preprocessGo]
      conv_rhs => rw [preprocessGo]
      rw [dif_neg (by simp; omega), dif_neg (by omega)]

/-- The index-shift law of the `Preprocess` scanner. -/
theorem preprocessGo_cons (exec : List Char → List Char) (a : Char)
    (l : List Char) (i : Nat) :
    preprocessGo exec (a :: l) (i + 1) = a :: preprocessGo exec l i :=
  preprocessGo_cons_aux exec a l.length l i (Nat.le_add_left _ _)

/-- Scanning a dollar-free string changes nothing (fuel-generalized). -/
theorem preprocessGo_noDollar_aux (exec : List Char → List Char) :
    ∀ n (s : List Char) (i : Nat), s.length ≤ i + n → '$' ∉ s →
      preprocessGo exec s i = s := by
  intro n
  induction n with
  | zero =>
    intro s i hn hno
    rw [preprocessGo, dif_neg (by omega)]
  | succ n ih =>
    intro s i hn hno
    rw [preprocessGo]
    split
    · rename_i hlt
      rw [if_pos (by
        rw [List.getD_eq_getElem s ' ' hlt]
        intro hc
        exact hno (hc ▸ List.getElem_mem hlt))]
      exact ih s (i + 1) (by omega) hno
    · rfl

/-- C10 (amended): `Preprocess` (i) returns any string containing no
dollar sign unchanged; (ii) collapses every adjacent dollar-sign pair that
is followed by at least one further character to a single literal dollar
sign and never treats it as the start of a substitution (the scan resumes
past the kept dollar sign); (iii) leaves a dollar-sign pair that ends the
string unchanged — the scan stops when fewer than two characters remain
after a dollar sign, which is where the original claim fails; and (iv)
when an open-brace tag has no matching close brace, returns the string
unsubstituted (the embedding is a total function with no error channel,
so no error is reported). -/
theorem preprocess_spec (exec : List Char → List Char) :
    (∀ s : List Char, '$' ∉ s → Preprocess exec s = s) ∧
    (∀ (c : Char) (l : List Char),
      Preprocess exec ('$' :: '$' :: c :: l) = '$' :: Preprocess exec (c :: l)) ∧
    Preprocess exec ['$', '$'] = ['$', '$'] ∧
    (∀ l : List Char, '}' ∉ l →
      Preprocess exec ('$' :: '{' :: l) = '$' :: '{' :: l) := by
  refine ⟨?_, ?_, ?_, ?_⟩
  · intro s hs
    exact preprocessGo_noDollar_aux exec s.length s 0 (by omega) hs
  · intro c l
    show preprocessGo exec ('$' :: '$' :: c :: l) 0 = _
    conv_lhs => rw [preprocessGo]
    rw [dif_pos (by simp), if_neg (by simp), if_neg (by simp), if_pos (by simp),
      List.eraseIdx_cons_zero]
    show preprocessGo exec ('$' :: c :: l) (0 + 1) = _
    rw [preprocessGo_cons]
    rfl
  · show preprocessGo exec ['$', '$'] 0 = _
    conv_lhs => rw [preprocessGo]
    rw [dif_pos (by simp), if_neg (by simp), if_pos (by simp)]
  · intro l hl
    show preprocessGo exec ('$' :: '{' :: l) 0 = _
    conv_lhs => rw [preprocessGo]
    rw [dif_pos (by simp), if_neg (by simp)]
    by_cases hsmall : ('$' :: '{' :: l).length ≤ 0 + 2
    · rw [if_pos hsmall]
    · rw [if_neg hsmall, if_neg (by simp), if_neg (by simp)]
      have hnone : parenMatchGo ('$' :: '{' :: l) 2 1 = none := by
        apply parenMatchGo_none _ ('$' :: '{' :: l).length _ _ (Nat.le_add_left _ _)
        intro k hk
        obtain ⟨m, rfl⟩ : ∃ m, k = m + 2 := ⟨k - 2, by omega⟩
        rw [show m + 2 = (m + 1) + 1 from rfl, List.getD_cons_succ,
          List.getD_cons_succ]
        rcases Nat.lt_or_ge m l.length with hm | hm
        · rw [List.getD_eq_getElem l ' ' hm]
          intro hc
          exact hl (hc ▸ List.getElem_mem hm)
        · rw [List.getD_eq_default l ' ' hm]
          decide
      have hpm : findParenMatch ('$' :: '{' :: l) (0 + 1) = 0 + 1 := by
        unfold findParenMatch
        rw [show (0 : Nat) + 1 + 1 = 2 from rfl, hnone]
      rw [dif_pos hpm]

/-- Counterexample to C10 as stated: a dollar-sign pair that ends the
string is NOT collapsed — the scan breaks off when fewer than two
characters remain after the dollar sign (MABE.hpp line 525) before the
pair-compression check runs. -/
theorem preprocess_trailing_pair_cex :
    Preprocess (fun s => s) ['$', '$'] = ['$', '$'] ∧
    Preprocess (fun s => s) ['$', '$'] ≠ ['$'] := by
  have h : Preprocess (fun s => s) ['$', '$'] = ['$', '$'] := by
    show preprocessGo (fun s => s) ['$', '$'] 0 = _
    conv_lhs => rw [preprocessGo]
    rw [dif_pos (by simp), if_neg (by simp), if_pos (by simp)]
  refine ⟨h, ?_⟩
  rw [h]
  decide

/-- Witness for C10 at concrete strings. -/
theorem preprocess_spec_witness :
    ('$' ∉ (['a', 'b'] : List Char) ∧ '}' ∉ (['x'] : List Char)) ∧
    Preprocess (fun s => s) ['a', 'b'] = ['a', 'b'] ∧
    Preprocess (fun s => s) ('$' :: '{' :: ['x']) = '$' :: '{' :: ['x'] :=
  ⟨⟨by decide, by decide⟩,
   (preprocess_spec (fun s => s)).1 ['a', 'b'] (by decide),
   (preprocess_spec (fun s => s)).2.2.2 ['x'] (by decide)⟩

-- ======================= C6 =======================

/-- C6: the claim asserts that the trait access-mode enumeration contains a
distinct mode for each of PRIVATE, OWNED, SHARED, REQUIRED, GENERATED and
OPTIONAL.  On the code this fails: the `TraitInfo::Access` enumeration
declared at TraitInfo.h lines 56-63 lacks GENERATED and OPTIONAL, even
though Module.hpp's own registration helpers reference both through
`using Access = TraitInfo::Access` — the code contradicts itself, and the
spec names the intended six modes. -/
theorem traitAccess_missing_generated_optional :
    ("GENERATED" ∉ traitAccessEnumerators ∧ "OPTIONAL" ∉ traitAccessEnumerators) ∧
    ¬ (∀ m ∈ specAccessModes, m ∈ traitAccessEnumerators) ∧
    (∀ m ∈ moduleReferencedAccessModes, m ∈ specAccessModes) := by decide

-- ======================= C7 =======================

/-- C7: `UpdateSignals` is a pure function of the modules' current
capability sets — every channel's subscriber list is rebuilt as exactly
the modules whose capability flag for that channel is set, in
module-registration order (a `filter` of the registration-ordered module
list), membership in a channel list is equivalent to the capability flag,
and running the rescan twice with no intervening capability change yields
the very same state (idempotence). -/
theorem updateSignals_filter_and_idempotent (st : WorldState) :
    ((UpdateSignals st).sigLists.length = st.sigLists.length) ∧
    (∀ c, c < st.sigLists.length →
      (UpdateSignals st).sigLists.get? c =
        some (st.modules.filter (fun m => m.hasSignal.getD c false))) ∧
    (∀ c l m, c < st.sigLists.length →
      (UpdateSignals st).sigLists.get? c = some l →
      (m ∈ l ↔ m ∈ st.modules ∧ m.hasSignal.getD c false = true)) ∧
    UpdateSignals (UpdateSignals st) = UpdateSignals st := by
  refine ⟨?_, ?_, ?_, ?_⟩
  · simp [UpdateSignals]
  · intro c hc
    simp [UpdateSignals, List.get?_eq_getElem?, List.getElem?_map,
      List.getElem?_range hc]
  · intro c l m hc hl
    simp only [UpdateSignals, List.get?_eq_getElem?, List.getElem?_map,
      List.getElem?_range hc, Option.map_some'] at hl
    cases hl
    simp [List.mem_filter]
  · unfold UpdateSignals
    simp

/-- Witness for C7 at a concrete state and channel. -/
theorem updateSignals_filter_and_idempotent_witness :
    0 < wSt0.sigLists.length ∧
    (UpdateSignals wSt0).sigLists.get? 0 =
      some (wSt0.modules.filter (fun m => m.hasSignal.getD 0 false)) :=
  ⟨by decide, (updateSignals_filter_and_idempotent wSt0).2.1 0 (by decide)⟩

-- ======================= C8 =======================

/-- If some sample index starting from sample number `k` hits an occupied
slot, the resampling loop terminates when given enough fuel. -/
theorem getRandomOrgPosLoop_terminates (slots : List Nat) (sentinel : Nat)
    (stream : Nat → Nat) :
    ∀ n k, slots.getD (stream (k + n) % slots.length) sentinel ≠ sentinel →
      ∃ fuel i, getRandomOrgPosLoop slots sentinel stream fuel k = some i := by
  intro n
  induction n with
  | zero =>
    intro k hk
    refine ⟨1, stream k % slots.length, ?_⟩
    simp only [getRandomOrgPosLoop]
    rw [if_pos]
    simpa using hk
  | succ n ih =>
    intro k hk
    by_cases h0 : slots.getD (stream k % slots.length) sentinel ≠ sentinel
    · refine ⟨1, stream k % slots.length, ?_⟩
      simp only [getRandomOrgPosLoop]
      rw [if_pos h0]
    · obtain ⟨fuel, i, hf⟩ := ih (k + 1) (by
        have : k + 1 + n = k + (n + 1) := by omega
        rw [this]; exact hk)
      refine ⟨fuel + 1, i, ?_⟩
      simp only [getRandomOrgPosLoop]
      rw [if_neg h0]
      exact hf

/-- C8: the resampling loop of `GetRandomOrgPos` (i) only ever returns an
in-bounds position holding a living (non-sentinel) organism; (ii)
terminates whenever the population holds at least one living organism and
the uniform generator eventually samples every index (which a uniform
random index sequence does with probability one); and (iii) never
terminates when the population has zero living organisms, so the
at-least-one-living-organism precondition is required for totality. -/
theorem getRandomOrgPos_spec (slots : List Nat) (sentinel : Nat)
    (stream : Nat → Nat) :
    (∀ fuel k i, getRandomOrgPosLoop slots sentinel stream fuel k = some i →
      i < slots.length ∧ slots.getD i sentinel ≠ sentinel) ∧
    ((∃ i, i < slots.length ∧ slots.getD i sentinel ≠ sentinel) →
      (∀ m, m < slots.length → ∃ n, stream n % slots.length = m) →
      ∃ fuel i, getRandomOrgPosLoop slots sentinel stream fuel 0 = some i) ∧
    (livingCount slots sentinel = 0 →
      ∀ fuel k, getRandomOrgPosLoop slots sentinel stream fuel k = none) := by
  refine ⟨?_, ?_, ?_⟩
  · intro fuel
    induction fuel with
    | zero => intro k i hk; cases hk
    | succ fuel ih =>
      intro k i hk
      simp only [getRandomOrgPosLoop] at hk
      split at hk
      · cases hk
        rename_i hocc
        refine ⟨?_, hocc⟩
        rcases Nat.eq_zero_or_pos slots.length with hz | hpos
        · exfalso
          apply hocc
          apply List.getD_eq_default
          omega
        · exact Nat.mod_lt _ hpos
      · exact ih _ _ hk
  · rintro ⟨i, hi, hocc⟩ hstream
    obtain ⟨n, hn⟩ := hstream i hi
    apply getRandomOrgPosLoop_terminates slots sentinel stream n 0
    rw [Nat.zero_add, hn]
    exact hocc
  · intro hzero fuel
    have hall : ∀ id ∈ slots, id = sentinel := by
      intro id hid
      by_contra hne
      have : id ∈ slots.filter (fun x => x ≠ sentinel) :=
        List.mem_filter.2 ⟨hid, by simpa using hne⟩
      have := List.length_pos.2 (List.ne_nil_of_mem this)
      unfold livingCount at hzero
      omega
    induction fuel with
    | zero => intro k; rfl
    | succ fuel ih =>
      intro k
      simp only [getRandomOrgPosLoop]
      rw [if_neg]
      · exact ih k.succ
      · intro hcon
        apply hcon
        rcases Nat.lt_or_ge (stream k % slots.length) slots.length with hlt | hge
        · rw [List.getD_eq_getElem slots sentinel hlt]
          exact hall _ (List.getElem_mem hlt)
        · exact List.getD_eq_default _ _ hge

/-- Witness for C8: a two-slot population with one living organism and the
identity sample stream. -/
theorem getRandomOrgPos_spec_witness :
    ((∃ i, i < ([0, 7] : List Nat).length ∧ ([0, 7] : List Nat).getD i 0 ≠ 0) ∧
      (∀ m, m < ([0, 7] : List Nat).length → ∃ n, (fun x => x) n % ([0, 7] : List Nat).length = m)) ∧
    (∃ fuel i, getRandomOrgPosLoop [0, 7] 0 (fun x => x) fuel 0 = some i) := by
  have h1 : ∃ i, i < ([0, 7] : List Nat).length ∧ ([0, 7] : List Nat).getD i 0 ≠ 0 :=
    ⟨1, by decide, by decide⟩
  have h2 : ∀ m, m < ([0, 7] : List Nat).length →
      ∃ n, (fun x => x) n % ([0, 7] : List Nat).length = m :=
    fun m hm => ⟨m, Nat.mod_eq_of_lt hm⟩
  exact ⟨⟨h1, h2⟩, (getRandomOrgPos_spec [0, 7] 0 (fun x => x)).2.1 h1 h2⟩

-- ======================= C9 =======================

/-- C9: when no population matches the requested name, `InjectByName`
records the error but then still calls `GetPopulation(pop_id)` with the id
left at -1; the implicit `size_t` conversion turns -1 into `2^64 - 1`, so
the population lookup `pops[(size_t)-1]` is out of bounds (undefined
behavior), contrary to the claim that no lookup with the invalid id
happens.  The embedding returns `none` exactly at that out-of-bounds
access. -/
theorem injectByName_unknownPop_oob (pf : PlaceInjectFn) (mk : Nat → Genome)
    (st : WorldState) (popName typeName : String) (count : Nat)
    (hname : ∀ p ∈ st.pops, p.name ≠ popName)
    (hlen : st.pops.length < 2 ^ 64) :
    GetPopID st popName = -1 ∧
    toSizeT (GetPopID st popName) = 2 ^ 64 - 1 ∧
    GetPopulation st (toSizeT (GetPopID st popName)) = none ∧
    InjectByName pf mk st popName typeName count = none := by
  have hid : GetPopID st popName = -1 := by
    unfold GetPopID
    rw [List.findIdx?_eq_none_iff.2]
    intro p hp
    simpa using hname p hp
  have hsz : toSizeT (-1 : Int) = 2 ^ 64 - 1 := by decide
  have hoob : GetPopulation st (toSizeT (-1 : Int)) = none := by
    unfold GetPopulation
    rw [hsz]
    exact List.get?_eq_none.2 (by omega)
  refine ⟨hid, by rw [hid]; exact hsz, by rw [hid]; exact hoob, ?_⟩
  unfold InjectByName
  rw [hid]
  simp only [eq_self_iff_true, if_true]
  have : GetPopulation (addError st
      ("Invalid population name used in inject: org_type= '" ++ typeName ++
        "'; pop_name= '" ++ popName ++ "'; copy_count=" ++ toString count))
      (toSizeT (-1 : Int)) = none := by
    unfold GetPopulation
    rw [hsz]
    exact List.get?_eq_none.2 (by simpa using by omega)
  rw [this]

/-- Witness for C9: a world with one population named differently from the
requested name. -/
theorem injectByName_unknownPop_oob_witness :
    ((∀ p ∈ wSt0.pops, p.name ≠ "missing") ∧ wSt0.pops.length < 2 ^ 64) ∧
    InjectByName (fun pops _ => (pops, OrgPosition.invalid)) (fun _ => 0) wSt0
      "missing" "BitsOrg" 1 = none := by
  have h1 : ∀ p ∈ wSt0.pops, p.name ≠ "missing" := by decide
  have h2 : wSt0.pops.length < 2 ^ 64 := by decide
  exact ⟨⟨h1, h2⟩,
    (injectByName_unknownPop_oob (fun pops _ => (pops, OrgPosition.invalid))
      (fun _ => 0) wSt0 "missing" "BitsOrg" 1 h1 h2).2.2.2⟩

-- ======================= CopyPop (MABE.hpp lines 233-239) =======================

/-- After `ClearOrgAt` the addressed slot always reads as the sentinel
(whether it was occupied, already empty, or out of range). -/
theorem clearOrgAt_slot_self (st : WorldState) (p i : Nat) :
    slotAt (ClearOrgAt st (some (p, i))) p i = st.emptyOrg := by
  by_cases hocc : slotAt st p i = st.emptyOrg
  · rw [clearOrgAt_empty st p i hocc]
    exact hocc
  · have hp : p < st.pops.length := by
      by_contra hge
      exact hocc (slotAt_pop_oob st p i (by omega))
    have hi : i < ((st.pops.getD p default).slots).length := by
      by_contra hge
      exact hocc (slotAt_oob st p i (by omega))
    exact (clearOrgAt_occupied st p i hocc).2.2.2.1 hp hi

/-- Every slot in the processed range of the `ClearPop` loop ends up
holding the sentinel. -/
theorem clearFrom_slot_range (p : Nat) :
    ∀ n i st k, i ≤ k → k < i + n →
      slotAt (clearFrom p n i st) p k = st.emptyOrg := by
  intro n
  induction n with
  | zero =>
    intro i st k h1 h2
    omega
  | succ n ih =>
    intro i st k h1 h2
    have hunf : clearFrom p (n + 1) i st =
        clearFrom p n (i + 1) (ClearOrgAt st (some (p, i))) := rfl
    rw [hunf]
    by_cases hk : k = i
    · subst hk
      obtain ⟨d, _, _, _, _, _, hslot1, _, _, _, _, _, _⟩ :=
        clearFrom_spec p n (k + 1) (ClearOrgAt st (some (p, k)))
      rw [hslot1 k (Or.inl (by omega)), clearOrgAt_slot_self]
    · have := ih (i + 1) (ClearOrgAt st (some (p, i))) k (by omega) (by omega)
      rw [this, clearOrgAt_emptyOrg]

/-- `ClearOrgAt` never touches the heap entry of an organism that is not
the one occupying the cleared slot. -/
theorem clearOrgAt_heap_untouched (st : WorldState) (p i id : Nat)
    (h : slotAt st p i ≠ id) :
    (ClearOrgAt st (some (p, i))).heap id = st.heap id := by
  by_cases hocc : slotAt st p i = st.emptyOrg
  · rw [clearOrgAt_empty st p i hocc]
  · exact (clearOrgAt_occupied st p i hocc).2.2.1 id (fun hc => h hc.symm)

/-- The `ClearPop` loop only releases organisms that occupy slots in the
processed range: any other heap entry is preserved. -/
theorem clearFrom_heap_untouched (p : Nat) :
    ∀ n i st id, (∀ k, i ≤ k → k < i + n → slotAt st p k ≠ id) →
      (clearFrom p n i st).heap id = st.heap id := by
  intro n
  induction n with
  | zero =>
    intro i st id _
    rfl
  | succ n ih =>
    intro i st id hne
    have hunf : clearFrom p (n + 1) i st =
        clearFrom p n (i + 1) (ClearOrgAt st (some (p, i))) := rfl
    rw [hunf]
    have h1 : (ClearOrgAt st (some (p, i))).heap id = st.heap id :=
      clearOrgAt_heap_untouched st p i id (hne i (by omega) (by omega))
    have h2 : ∀ k, i + 1 ≤ k → k < i + 1 + n →
        slotAt (ClearOrgAt st (some (p, i))) p k ≠ id := by
      intro k hk1 hk2
      rw [clearOrgAt_slot_ne st p i p k (Or.inr (by omega))]
      exact hne k (by omega) (by omega)
    rw [ih (i + 1) _ id h2, h1]

/-- After `ClearPop` every slot of the cleared population reads as the
sentinel. -/
theorem clearPop_slot (st : WorldState) (p k : Nat) :
    slotAt (ClearPop st p) p k = st.emptyOrg := by
  unfold ClearPop
  rcases Nat.lt_or_ge k ((st.pops.getD p default).slots).length with h | h
  · exact clearFrom_slot_range p _ 0 st k (by omega) (by omega)
  · obtain ⟨d, _, _, _, _, _, _, _, hemp, _, _, _, hslen⟩ :=
      clearFrom_spec p ((st.pops.getD p default).slots).length 0 st
    rw [slotAt_oob _ p k (by rw [hslen p]; omega), hemp]

/-- `ClearPop` preserves the heap entry of any organism not held in the
cleared population. -/
theorem clearPop_heap_untouched (st : WorldState) (p id : Nat)
    (h : ∀ k, slotAt st p k ≠ id) :
    (ClearPop st p).heap id = st.heap id :=
  clearFrom_heap_untouched p _ 0 st id (fun k _ _ => h k)

/-- A slot read only depends on the addressed population entry and the
sentinel id. -/
theorem slotAt_congr (st st2 : WorldState) (p k : Nat)
    (hpop : st2.pops.getD p default = st.pops.getD p default)
    (hemp : st2.emptyOrg = st.emptyOrg) :
    slotAt st2 p k = slotAt st p k := by
  unfold slotAt
  rw [hpop, hemp]

/-- Reading a replicated list with the replicated value as the default
always yields that value. -/
theorem getD_replicate_self (m k x : Nat) :
    (List.replicate m x).getD k x = x := by
  rcases Nat.lt_or_ge k m with h | h
  · rw [List.getD_eq_getElem _ _ (by simpa using h)]
    simp
  · rw [List.getD_eq_default _ _ (by simpa using h)]

/-- Reading below the cut of `take` sees the original list. -/
theorem getD_take_of_lt (l : List Nat) (n k d : Nat) (h : k < n) :
    (l.take n).getD k d = l.getD k d := by
  rw [List.getD_eq_getD_get?, List.getD_eq_getD_get?, List.get?_eq_getElem?,
    List.get?_eq_getElem?, List.getElem?_take]
  simp [h]

theorem resizePop_heap (st : WorldState) (p n : Nat) :
    (ResizePop st p n).heap = st.heap := by
  simp only [ResizePop, pushEvent_pops]
  cases st.pops.get? p <;> rfl

theorem resizePop_errors (st : WorldState) (p n : Nat) :
    (ResizePop st p n).errors = st.errors := by
  simp only [ResizePop, pushEvent_pops]
  cases st.pops.get? p <;> rfl

theorem resizePop_nextId (st : WorldState) (p n : Nat) :
    (ResizePop st p n).nextId = st.nextId := by
  simp only [ResizePop, pushEvent_pops]
  cases st.pops.get? p <;> rfl

theorem resizePop_emptyOrg (st : WorldState) (p n : Nat) :
    (ResizePop st p n).emptyOrg = st.emptyOrg := by
  simp only [ResizePop, pushEvent_pops]
  cases st.pops.get? p <;> rfl

theorem resizePop_pops_length (st : WorldState) (p n : Nat) :
    (ResizePop st p n).pops.length = st.pops.length := by
  simp only [ResizePop, pushEvent_pops]
  cases st.pops.get? p <;> simp

theorem resizePop_popAt_ne (st : WorldState) (p n q : Nat) (hq : p ≠ q) :
    (ResizePop st p n).pops.getD q default = st.pops.getD q default := by
  simp only [ResizePop, pushEvent_pops]
  cases hg : st.pops.get? p with
  | none => rfl
  | some pop =>
    simp only
    rw [List.getD_eq_getD_get?, List.getD_eq_getD_get?, List.get?_eq_getElem?,
      List.get?_eq_getElem?, List.getElem?_set_ne hq]

/-- The population entry rewritten by `ResizePop`: grown with
sentinel-filled slots or truncated. -/
theorem resizePop_popAt_self (st : WorldState) (p n : Nat)
    (hp : p < st.pops.length) :
    (ResizePop st p n).pops.getD p default =
      { st.pops.getD p default with
        slots :=
          if ((st.pops.getD p default).slots).length ≤ n then
            (st.pops.getD p default).slots ++
              List.replicate (n - ((st.pops.getD p default).slots).length)
                st.emptyOrg
          else (st.pops.getD p default).slots.take n } := by
  simp only [ResizePop, pushEvent_pops, pushEvent_emptyOrg]
  rw [pops_get?_getD st p hp]
  simp only
  rw [List.getD_eq_getElem _ _ (by simpa using hp), List.getElem_set_self]

/-- After `ResizePop` the resized population has exactly the requested
size. -/
theorem resizePop_slotsLen_self (st : WorldState) (p n : Nat)
    (hp : p < st.pops.length) :
    (((ResizePop st p n).pops.getD p default).slots).length = n := by
  rw [resizePop_popAt_self st p n hp]
  by_cases h : ((st.pops.getD p default).slots).length ≤ n
  · simp only [h, if_true, List.length_append, List.length_replicate]
    omega
  · simp only [h, if_false, List.length_take]
    omega

/-- Every slot of the resized population reads either its pre-resize value
or the sentinel. -/
theorem resizePop_slot (st : WorldState) (p n k : Nat) :
    slotAt (ResizePop st p n) p k = slotAt st p k ∨
      slotAt (ResizePop st p n) p k = st.emptyOrg := by
  by_cases hp : p < st.pops.length
  · unfold slotAt
    rw [resizePop_popAt_self st p n hp, resizePop_emptyOrg]
    simp only
    by_cases hlen : ((st.pops.getD p default).slots).length ≤ n
    · rw [if_pos hlen]
      rcases Nat.lt_or_ge k ((st.pops.getD p default).slots).length with hk | hk
      · left
        rw [List.getD_append _ _ _ _ hk]
      · right
        rw [List.getD_append_right _ _ _ _ hk, getD_replicate_self]
    · rw [if_neg hlen]
      rcases Nat.lt_or_ge k n with hk | hk
      · left
        rw [getD_take_of_lt _ _ _ _ hk]
      · right
        rw [List.getD_eq_default _ _ (by simp [List.length_take]; omega)]
  · left
    refine slotAt_congr _ _ p k ?_ (resizePop_emptyOrg st p n)
    simp only [ResizePop, pushEvent_pops]
    rw [List.get?_eq_getElem?, List.getElem?_len_le (by omega)]

/-- `EmptyPop` summary: the emptied population gets exactly the requested
size with every slot holding the sentinel; other populations, the heap
entries of organisms living outside the emptied population, the error
collector and the bookkeeping fields are untouched. -/
theorem emptyPop_spec (st : WorldState) (p n : Nat) (hp : p < st.pops.length) :
    (((EmptyPop st p n).pops.getD p default).slots).length = n ∧
    (∀ k, slotAt (EmptyPop st p n) p k = st.emptyOrg) ∧
    (∀ q, q ≠ p → (EmptyPop st p n).pops.getD q default =
      st.pops.getD q default) ∧
    (∀ id, (∀ k, slotAt st p k ≠ id) →
      (EmptyPop st p n).heap id = st.heap id) ∧
    (EmptyPop st p n).errors = st.errors ∧
    (EmptyPop st p n).emptyOrg = st.emptyOrg ∧
    (EmptyPop st p n).nextId = st.nextId ∧
    (EmptyPop st p n).pops.length = st.pops.length := by
  obtain ⟨d, htr, hshape, hrel, hmono, hpop, herr, hemp, hnext, hmod, hlen,
    hslen⟩ := clearPop_spec st p
  have hpC : p < (ClearPop st p).pops.length := by
    rw [hlen]
    exact hp
  unfold EmptyPop
  refine ⟨?_, ?_, ?_, ?_, ?_, ?_, ?_, ?_⟩
  · exact resizePop_slotsLen_self _ p n hpC
  · intro k
    rcases resizePop_slot (ClearPop st p) p n k with h | h
    · rw [h, clearPop_slot]
    · rw [h, hemp]
  · intro q hq
    rw [resizePop_popAt_ne _ p n q (fun hc => hq hc.symm), hpop q hq]
  · intro id hid
    rw [resizePop_heap]
    exact clearPop_heap_untouched st p id hid
  · rw [resizePop_errors, herr]
  · rw [resizePop_emptyOrg, hemp]
  · rw [resizePop_nextId, hnext]
  · rw [resizePop_pops_length, hlen]

/-- `AddOrgAt` into a slot holding the sentinel skips the release step:
it is just BeforePlacement, the slot write, OnPlacement. -/
theorem addOrgAt_empty_target (st : WorldState) (orgId p i : Nat)
    (ppos : OrgPosition) (hold : slotAt st p i = st.emptyOrg) :
    AddOrgAt st orgId (some (p, i)) ppos =
      pushEvent
        (setSlot
          (pushEvent st (.beforePlacement (orgVal st orgId) (some (p, i)) ppos))
          p i orgId)
        (.onPlacement (some (p, i))) := by
  unfold AddOrgAt
  simp only
  rw [if_neg]
  exact not_not_intro hold

/-- `InjectAt` into a sentinel-holding slot, written out: allocate the
clone, fire OnInjectReady then BeforePlacement, write the slot, fire
OnPlacement. -/
theorem injectAt_empty_target (st : WorldState) (g : Genome) (p k : Nat)
    (hold : slotAt st p k = st.emptyOrg) :
    InjectAt st g (some (p, k)) =
      pushEvent
        (setSlot
          (pushEvent
            (pushEvent (allocOrg st g).1 (.onInjectReady g p))
            (.beforePlacement g (some (p, k)) OrgPosition.invalid))
          p k st.nextId)
        (.onPlacement (some (p, k))) := by
  unfold InjectAt
  simp only
  have hold2 : slotAt (pushEvent (allocOrg st g).1 (.onInjectReady g p)) p k =
      (pushEvent (allocOrg st g).1 (.onInjectReady g p)).emptyOrg := hold
  rw [addOrgAt_empty_target _ _ p k _ hold2]
  simp [orgVal, allocOrg]

/-- `InjectAt` of a fresh clone into an in-bounds sentinel slot: the slot
now holds the fresh id, the fresh id maps to the injected genome, every
other heap entry, slot and population is untouched, and the allocator
advances by one. -/
theorem injectAt_spec (st : WorldState) (g : Genome) (p k : Nat)
    (hp : p < st.pops.length)
    (hk : k < ((st.pops.getD p default).slots).length)
    (hold : slotAt st p k = st.emptyOrg) :
    slotAt (InjectAt st g (some (p, k))) p k = st.nextId ∧
    (InjectAt st g (some (p, k))).heap st.nextId = some g ∧
    (∀ id, id ≠ st.nextId →
      (InjectAt st g (some (p, k))).heap id = st.heap id) ∧
    (∀ q j, p ≠ q ∨ k ≠ j →
      slotAt (InjectAt st g (some (p, k))) q j = slotAt st q j) ∧
    (InjectAt st g (some (p, k))).nextId = st.nextId + 1 ∧
    (InjectAt st g (some (p, k))).emptyOrg = st.emptyOrg ∧
    (InjectAt st g (some (p, k))).pops.length = st.pops.length ∧
    (∀ q, q ≠ p → (InjectAt st g (some (p, k))).pops.getD q default =
      st.pops.getD q default) ∧
    (∀ q, (((InjectAt st g (some (p, k))).pops.getD q default).slots).length =
      ((st.pops.getD q default).slots).length) := by
  rw [injectAt_empty_target st g p k hold]
  set stA := pushEvent (pushEvent (allocOrg st g).1 (.onInjectReady g p))
    (.beforePlacement g (some (p, k)) OrgPosition.invalid) with hstA
  have hApops : stA.pops = st.pops := rfl
  refine ⟨?_, ?_, ?_, ?_, ?_, ?_, ?_, ?_, ?_⟩
  · exact slotAt_setSlot_self stA p k st.nextId (by rw [hApops]; exact hp)
      (by rw [hApops]; exact hk)
  · show (setSlot stA p k st.nextId).heap st.nextId = some g
    rw [setSlot_heap]
    exact allocOrg_heap_self st g
  · intro id hid
    show (setSlot stA p k st.nextId).heap id = st.heap id
    rw [setSlot_heap]
    exact allocOrg_heap_other st g id hid
  · intro q j hqj
    exact slotAt_setSlot_ne stA p k st.nextId q j hqj
  · show (setSlot stA p k st.nextId).nextId = st.nextId + 1
    rw [setSlot_nextId, hstA]
    rfl
  · show (setSlot stA p k st.nextId).emptyOrg = st.emptyOrg
    rw [setSlot_emptyOrg, hstA]
    rfl
  · show (setSlot stA p k st.nextId).pops.length = st.pops.length
    rw [setSlot_pops_length, hApops]
  · intro q hq
    show (setSlot stA p k st.nextId).pops.getD q default = st.pops.getD q default
    rw [setSlot_popAt_ne stA p k st.nextId q (fun hc => hq hc.symm), hApops]
  · intro q
    show (((setSlot stA p k st.nextId).pops.getD q default).slots).length = _
    rw [setSlot_slotsLen, hApops]

/-- A slot whose content differs from the sentinel holds a member of the
population's slot list. -/
theorem slotAt_mem (st : WorldState) (p k : Nat)
    (h : slotAt st p k ≠ st.emptyOrg) :
    slotAt st p k ∈ (st.pops.getD p default).slots := by
  have hk : k < ((st.pops.getD p default).slots).length := by
    by_contra hge
    exact h (slotAt_oob st p k (by omega))
  unfold slotAt
  rw [List.getD_eq_getElem _ _ hk]
  exact List.getElem_mem _

/-- Overwriting the heap value of the organism in one slot leaves every
other organism's heap entry untouched. -/
theorem mutateOrgAt_heap_other (st : WorldState) (p i : Nat) (g : Genome)
    (id : Nat) (h : id ≠ slotAt st p i) :
    (mutateOrgAt st p i g).heap id = st.heap id := by
  show (if id = slotAt st p i then some g else st.heap id) = st.heap id
  rw [if_neg h]

/-- Loop invariant of the `CopyPop` copy loop.  Relative to the original
state `st0` (whose source population and organisms the current state `st`
still agrees with), processing indices `[i, i+n)` leaves the source
population and every heap entry below the current allocator untouched,
keeps the already-processed prefix of the destination, and fills each
in-range destination slot with the sentinel exactly when the source slot
is empty, and otherwise with a freshly allocated clone whose heap value
equals the source organism's. -/
theorem copyFrom_spec (st0 : WorldState) (srcId dstId : Nat)
    (hne : srcId ≠ dstId)
    (hids : ∀ id ∈ (st0.pops.getD srcId default).slots, id ≠ st0.emptyOrg →
      id < st0.nextId ∧ (st0.heap id).isSome) :
    ∀ n i st,
      dstId < st.pops.length →
      st.pops.getD srcId default = st0.pops.getD srcId default →
      (∀ id ∈ (st0.pops.getD srcId default).slots, id ≠ st0.emptyOrg →
        st.heap id = st0.heap id) →
      st.emptyOrg = st0.emptyOrg →
      st0.nextId ≤ st.nextId →
      (∀ k, i ≤ k → slotAt st dstId k = st0.emptyOrg) →
      (∀ k, i ≤ k → k < i + n →
        k < ((st.pops.getD dstId default).slots).length) →
      ((copyFrom srcId dstId n i st).pops.getD srcId default =
        st0.pops.getD srcId default) ∧
      (∀ id, id < st.nextId →
        (copyFrom srcId dstId n i st).heap id = st.heap id) ∧
      ((copyFrom srcId dstId n i st).emptyOrg = st0.emptyOrg) ∧
      (st.nextId ≤ (copyFrom srcId dstId n i st).nextId) ∧
      (∀ k, k < i →
        slotAt (copyFrom srcId dstId n i st) dstId k = slotAt st dstId k) ∧
      (∀ k, i ≤ k → k < i + n →
        (slotAt st0 srcId k = st0.emptyOrg →
          slotAt (copyFrom srcId dstId n i st) dstId k = st0.emptyOrg) ∧
        (slotAt st0 srcId k ≠ st0.emptyOrg →
          st0.nextId ≤ slotAt (copyFrom srcId dstId n i st) dstId k ∧
          (copyFrom srcId dstId n i st).heap
              (slotAt (copyFrom srcId dstId n i st) dstId k) =
            st0.heap (slotAt st0 srcId k))) ∧
      ((copyFrom srcId dstId n i st).pops.length = st.pops.length) ∧
      (∀ q, (((copyFrom srcId dstId n i st).pops.getD q default).slots).length =
        ((st.pops.getD q default).slots).length) := by
  intro n
  induction n with
  | zero =>
    intro i st _ hsrcpop _ hemp _ _ _
    refine ⟨hsrcpop, fun id _ => rfl, hemp, le_refl _, fun k _ => rfl, ?_,
      rfl, fun q => rfl⟩
    intro k h1 h2
    omega
  | succ n ih =>
    intro i st hdst hsrcpop hsrcheap hemp hnext hunproc hlenH
    have hunf : copyFrom srcId dstId (n + 1) i st =
        copyFrom srcId dstId n (i + 1)
          (if slotAt st srcId i = st.emptyOrg then st
           else InjectAt st (orgVal st (slotAt st srcId i))
             (some (dstId, i))) := rfl
    by_cases hocc : slotAt st srcId i = st.emptyOrg
    · rw [hunf, if_pos hocc]
      obtain ⟨ha, hb, hc, hd, he, hf, hg, hh⟩ := ih (i + 1) st hdst hsrcpop
        hsrcheap hemp hnext (fun k hk => hunproc k (by omega))
        (fun k hk1 hk2 => hlenH k (by omega) (by omega))
      refine ⟨ha, hb, hc, hd, ?_, ?_, hg, hh⟩
      · intro k hk
        exact he k (by omega)
      · intro k h1 h2
        by_cases hki : k = i
        · subst hki
          constructor
          · intro _
            rw [he k (by omega)]
            exact hunproc k (by omega)
          · intro hocc0
            exfalso
            have hsv : slotAt st srcId k = slotAt st0 srcId k :=
              slotAt_congr st0 st srcId k hsrcpop hemp
            exact hocc0 (by rw [← hsv, hocc, hemp])
        · exact hf k (by omega) (by omega)
    · rw [hunf, if_neg hocc]
      set v := orgVal st (slotAt st srcId i) with hv
      set st1 := InjectAt st v (some (dstId, i)) with hst1
      have hkbound : i < ((st.pops.getD dstId default).slots).length :=
        hlenH i (by omega) (by omega)
      have hold : slotAt st dstId i = st.emptyOrg := by
        rw [hemp]
        exact hunproc i (by omega)
      obtain ⟨hselfslot, hheapself, hheapother, hslotne, hnextI, hempI,
        hplenI, hpopneI, hslenI⟩ := injectAt_spec st v dstId i hdst hkbound hold
      have hsv : slotAt st srcId i = slotAt st0 srcId i :=
        slotAt_congr st0 st srcId i hsrcpop hemp
      have hocc0 : slotAt st0 srcId i ≠ st0.emptyOrg := by
        intro hc
        exact hocc (by rw [hsv, hc, hemp])
      have hmem : slotAt st0 srcId i ∈ (st0.pops.getD srcId default).slots :=
        slotAt_mem st0 srcId i hocc0
      have hidlt : slotAt st0 srcId i < st0.nextId := (hids _ hmem hocc0).1
      have hheapval : st.heap (slotAt st srcId i) =
          st0.heap (slotAt st0 srcId i) := by
        rw [hsv]
        exact hsrcheap _ hmem hocc0
      have hdst1 : dstId < st1.pops.length := by
        rw [hplenI]
        exact hdst
      have hsrcpop1 : st1.pops.getD srcId default =
          st0.pops.getD srcId default := by
        rw [hpopneI srcId hne, hsrcpop]
      have hsrcheap1 : ∀ id ∈ (st0.pops.getD srcId default).slots,
          id ≠ st0.emptyOrg → st1.heap id = st0.heap id := by
        intro id hm hid
        have hlt := (hids id hm hid).1
        rw [hheapother id (by omega), hsrcheap id hm hid]
      have hemp1 : st1.emptyOrg = st0.emptyOrg := by
        rw [hempI, hemp]
      have hnext1 : st0.nextId ≤ st1.nextId := by
        rw [hnextI]
        omega
      have hunproc1 : ∀ k, i + 1 ≤ k → slotAt st1 dstId k = st0.emptyOrg := by
        intro k hk
        rw [hslotne dstId k (Or.inr (by omega)), hunproc k (by omega)]
      have hlenH1 : ∀ k, i + 1 ≤ k → k < i + 1 + n →
          k < ((st1.pops.getD dstId default).slots).length := by
        intro k h1 h2
        rw [hslenI dstId]
        exact hlenH k (by omega) (by omega)
      obtain ⟨ha, hb, hc, hd, he, hf, hg, hh⟩ :=
        ih (i + 1) st1 hdst1 hsrcpop1 hsrcheap1 hemp1 hnext1 hunproc1 hlenH1
      refine ⟨ha, ?_, hc, ?_, ?_, ?_, ?_, ?_⟩
      · intro id hid
        rw [hb id (by rw [hnextI]; omega), hheapother id (by omega)]
      · rw [hnextI] at hd
        omega
      · intro k hk
        rw [he k (by omega), hslotne dstId k (Or.inr (by omega))]
      · intro k h1 h2
        by_cases hki : k = i
        · subst hki
          constructor
          · intro habs
            exact absurd habs hocc0
          · intro _
            rw [he k (by omega), hselfslot]
            constructor
            · omega
            · obtain ⟨w, hw⟩ := Option.isSome_iff_exists.1 (hids _ hmem hocc0).2
              have hv2 : v = w := by
                rw [hv]
                unfold orgVal
                rw [hheapval, hw]
                rfl
              rw [hb st.nextId (by rw [hnextI]; omega), hheapself, hv2, hw]
        · exact hf k (by omega) (by omega)
      · rw [hg, hplenI]
      · intro q
        rw [hh q, hslenI q]

/-- C4: For every source population `srcId` and destination population
`dstId` (distinct, both existing, with the source's organisms live on the
heap and no destination organism shared with the source), after
`CopyPop st srcId dstId` the destination has exactly the source's size,
is occupied at exactly the indices where the source is occupied (empty
source slots stay empty in the destination), each occupied destination
slot holds a fresh deep clone at the matching index whose heap value
equals the source organism's, the source population itself is unchanged,
and the clones are independent: overwriting the genome of a destination
clone in place does not alter the heap entry of the corresponding source
organism. -/
theorem copyPop_spec (st : WorldState) (srcId dstId : Nat)
    (hsrc : srcId < st.pops.length) (hdst : dstId < st.pops.length)
    (hne : srcId ≠ dstId)
    (hids : ∀ id ∈ (st.pops.getD srcId default).slots, id ≠ st.emptyOrg →
      id < st.nextId ∧ (st.heap id).isSome)
    (hsent : st.emptyOrg < st.nextId)
    (hdisj : ∀ id ∈ (st.pops.getD dstId default).slots, id ≠ st.emptyOrg →
      id ∉ (st.pops.getD srcId default).slots) :
    ((((CopyPop st srcId dstId).pops.getD dstId default).slots).length =
      ((st.pops.getD srcId default).slots).length) ∧
    ((CopyPop st srcId dstId).pops.getD srcId default =
      st.pops.getD srcId default) ∧
    (∀ k, k < ((st.pops.getD srcId default).slots).length →
      (slotAt st srcId k = st.emptyOrg →
        slotAt (CopyPop st srcId dstId) dstId k = st.emptyOrg) ∧
      (slotAt st srcId k ≠ st.emptyOrg →
        slotAt (CopyPop st srcId dstId) dstId k ≠ st.emptyOrg ∧
        slotAt (CopyPop st srcId dstId) dstId k ≠ slotAt st srcId k ∧
        (CopyPop st srcId dstId).heap
            (slotAt (CopyPop st srcId dstId) dstId k) =
          st.heap (slotAt st srcId k) ∧
        (CopyPop st srcId dstId).heap (slotAt st srcId k) =
          st.heap (slotAt st srcId k) ∧
        (∀ g2, (mutateOrgAt (CopyPop st srcId dstId) dstId k g2).heap
            (slotAt st srcId k) =
          (CopyPop st srcId dstId).heap (slotAt st srcId k)))) := by
  obtain ⟨hElen, hEslot, hEpopne, hEheap, hEerr, hEemp, hEnext, hEplen⟩ :=
    emptyPop_spec st dstId ((st.pops.getD srcId default).slots).length hdst
  set L := ((st.pops.getD srcId default).slots).length with hL
  set stE := EmptyPop st dstId L with hstE
  have hCP : CopyPop st srcId dstId = copyFrom srcId dstId L 0 stE := rfl
  rw [hCP]
  set F := copyFrom srcId dstId L 0 stE with hF
  have hdstE : dstId < stE.pops.length := by
    rw [hstE, hEplen]
    exact hdst
  have hsrcpopE : stE.pops.getD srcId default = st.pops.getD srcId default :=
    hEpopne srcId hne
  have hsrcheapE : ∀ id ∈ (st.pops.getD srcId default).slots,
      id ≠ st.emptyOrg → stE.heap id = st.heap id := by
    intro id hm hid
    apply hEheap
    intro k
    by_cases hocc2 : slotAt st dstId k = st.emptyOrg
    · rw [hocc2]
      exact fun hc => hid hc.symm
    · have hmem2 := slotAt_mem st dstId k hocc2
      have hnotin := hdisj _ hmem2 hocc2
      intro hc
      rw [hc] at hnotin
      exact hnotin hm
  have hempE : stE.emptyOrg = st.emptyOrg := hEemp
  have hnextE : st.nextId ≤ stE.nextId := by
    rw [hstE, hEnext]
  have hunprocE : ∀ k, 0 ≤ k → slotAt stE dstId k = st.emptyOrg :=
    fun k _ => hEslot k
  have hlenHE : ∀ k, 0 ≤ k → k < 0 + L →
      k < ((stE.pops.getD dstId default).slots).length := by
    intro k _ h2
    rw [hstE, hElen]
    omega
  obtain ⟨ha, hb, hc, hd, he, hf, hg, hh⟩ :=
    copyFrom_spec st srcId dstId hne hids L 0 stE hdstE hsrcpopE hsrcheapE
      hempE hnextE hunprocE hlenHE
  refine ⟨?_, ha, ?_⟩
  · rw [hh dstId, hstE, hElen]
  · intro k hk
    constructor
    · intro hocc
      exact (hf k (by omega) (by omega)).1 hocc
    · intro hocc
      obtain ⟨hge, hheapc⟩ := (hf k (by omega) (by omega)).2 hocc
      have hmem := slotAt_mem st srcId k hocc
      have hidlt := (hids _ hmem hocc).1
      have hcge : st.nextId ≤ slotAt F dstId k := hge
      have hheapsrc : F.heap (slotAt st srcId k) = st.heap (slotAt st srcId k) := by
        rw [hb (slotAt st srcId k) (by omega), hsrcheapE _ hmem hocc]
      refine ⟨by omega, by omega, hheapc, hheapsrc, ?_⟩
      intro g2
      rw [mutateOrgAt_heap_other F dstId k g2 (slotAt st srcId k) (by omega)]

/-- The C4 theorem applied to the concrete world `wSt1`: copying the
three-slot source population (occupied only at index 1) over the one-slot
destination leaves the destination with exactly three slots. -/
theorem copyPop_spec_witness :
    ((0 : Nat) < wSt1.pops.length ∧ (1 : Nat) < wSt1.pops.length ∧
      (0 : Nat) ≠ 1 ∧ wSt1.emptyOrg < wSt1.nextId) ∧
    ((((CopyPop wSt1 0 1).pops.getD 1 default).slots).length =
      ((wSt1.pops.getD 0 default).slots).length) :=
  ⟨⟨by decide, by decide, by decide, by decide⟩,
    (copyPop_spec wSt1 0 1 (by decide) (by decide) (by decide) (by decide)
      (by decide) (by decide)).1⟩

end MABE2
